import Mathlib

/-!
Shallow embedding of the Slither simulation core (`slitherLogic.js`) over ℝ,
together with proofs settling a set of claims about it.

JavaScript numbers are idealized as real numbers; `Math.random()` draws are
threaded explicitly as a stream `rng : ℕ → ℝ` (for state construction) or as
two explicit draws `r1 r2` (for the periodic pellet spawn inside `tick`).
-/

open scoped Classical

noncomputable section

namespace Slither

/-- `{x, y}` world coordinate. -/
structure Point where
  x : ℝ
  y : ℝ

instance : Inhabited Point := ⟨⟨0, 0⟩⟩

/-- `{x, y, value}` pellet. -/
structure Pellet where
  x : ℝ
  y : ℝ
  value : ℝ

instance : Inhabited Pellet := ⟨⟨0, 0, 0⟩⟩

/-- `{width, height}` rectangular world extent. -/
structure Bounds where
  width : ℝ
  height : ℝ

/-- A snake/organism: ordered segments (head first), heading, speeds. -/
structure Snake where
  id : String
  segments : List Point
  angle : ℝ
  speed : ℝ
  turnSpeed : ℝ
  color : String
  isPlayer : Bool

instance : Inhabited Snake := ⟨⟨"", [], 0, 0, 0, "", false⟩⟩

/-- The authoritative game state snapshot. -/
structure GameState where
  snakes : List Snake
  pellets : List Pellet
  bounds : Bounds
  nextSnakeId : ℕ
  nextPelletSpawn : ℝ

def SEGMENT_SPACING : ℝ := 8
def HEAD_RADIUS : ℝ := 10
def BODY_RADIUS : ℝ := 8
def PELLET_RADIUS : ℝ := 6
def DEFAULT_SPEED : ℝ := 120
def TURN_SPEED : ℝ := 4
def PELLET_VALUE : ℝ := 1
def DEATH_PELLET_FRACTION : ℝ := 0.4
def INITIAL_LENGTH : ℕ := 15
def PELLET_SPAWN_INTERVAL : ℝ := 2
def ARENA_PADDING : ℝ := 40

/-- Denotation of `normalizeAngle`'s two while loops on reals: subtract `2π`
while above `π`, add `2π` while below `-π`.  The closed form uses the exact
iteration count of each loop (the loops are mutually exclusive: if the first
fires at all, its result already lies in `(-π, π]`). -/
def normalizeAngle (a : ℝ) : ℝ :=
  if Real.pi < a then a - 2 * Real.pi * ⌈(a - Real.pi) / (2 * Real.pi)⌉
  else if a < -Real.pi then a + 2 * Real.pi * ⌈(-Real.pi - a) / (2 * Real.pi)⌉
  else a

/-- Fuel-indexed operational version of the first while loop of
`normalizeAngle` (`while (a > PI) a -= 2*PI`); `none` means fuel ran out. -/
def subLoop : ℕ → ℝ → Option ℝ
  | 0, a => if Real.pi < a then none else some a
  | fuel + 1, a => if Real.pi < a then subLoop fuel (a - 2 * Real.pi) else some a

/-- Fuel-indexed operational version of the second while loop of
`normalizeAngle` (`while (a < -PI) a += 2*PI`). -/
def addLoop : ℕ → ℝ → Option ℝ
  | 0, a => if a < -Real.pi then none else some a
  | fuel + 1, a => if a < -Real.pi then addLoop fuel (a + 2 * Real.pi) else some a

/-- Operational `normalizeAngle`: run the subtract loop, then the add loop,
each with the given fuel. -/
def normalizeAngleIter (fuel : ℕ) (a : ℝ) : Option ℝ :=
  (subLoop fuel a).bind (addLoop fuel)

/-- `distSq`: squared Euclidean distance (avoids sqrt). -/
def distSq (a b : Point) : ℝ :=
  (b.x - a.x) * (b.x - a.x) + (b.y - a.y) * (b.y - a.y)

/-- `snake.segments[0]` (head-first ordering). -/
def headPt (s : Snake) : Point := s.segments.headI

/-- `snake.segments[snake.segments.length - 1]`. -/
def tailPt (s : Snake) : Point := s.segments.getLastD ⟨0, 0⟩

/-- One step of the body-follow loop: place the current segment exactly
`SEGMENT_SPACING` from its leader `prev`, along the direction from `prev` to
the segment's previous position `curr`; if that distance is ≈ 0 (threshold
`1e-6`), place it `SEGMENT_SPACING` behind the leader along the heading
instead (avoiding division by a near-zero distance).  `d` is `Math.hypot`. -/
def followStep (angle : ℝ) (prev curr : Point) : Point :=
  let d := Real.sqrt ((prev.x - curr.x) * (prev.x - curr.x) +
    (prev.y - curr.y) * (prev.y - curr.y))
  if d ≤ 1e-6 then
    ⟨prev.x - Real.cos angle * SEGMENT_SPACING,
     prev.y - Real.sin angle * SEGMENT_SPACING⟩
  else
    ⟨prev.x + (curr.x - prev.x) / d * SEGMENT_SPACING,
     prev.y + (curr.y - prev.y) / d * SEGMENT_SPACING⟩

/-- The body-follow loop of `moveSnake` over the trailing segments: each new
segment becomes the leader of the next. -/
def followSegs (angle : ℝ) : Point → List Point → List Point
  | _, [] => []
  | prev, curr :: rest =>
    followStep angle prev curr :: followSegs angle (followStep angle prev curr) rest

/-- `moveSnake`: steer toward `targetAngle` (interpolation by
`min 1 (turnSpeed * dt)`, re-normalized), advance the head by
`speed * dt` along the new heading, then propagate the body. -/
def moveSnake (snake : Snake) (dt targetAngle : ℝ) : Snake :=
  let head := headPt snake
  let diff := normalizeAngle (targetAngle - snake.angle)
  let angle := normalizeAngle (snake.angle + diff * min 1 (snake.turnSpeed * dt))
  let newHead : Point := ⟨head.x + Real.cos angle * snake.speed * dt,
    head.y + Real.sin angle * snake.speed * dt⟩
  { snake with
      segments := newHead :: followSegs angle newHead (snake.segments.drop 1)
      angle := angle }

/-- `hitWall`: head within `HEAD_RADIUS` of one of the four boundary walls. -/
def hitWall (head : Point) (bounds : Bounds) : Prop :=
  head.x - HEAD_RADIUS < 0 ∨ head.y - HEAD_RADIUS < 0 ∨
  bounds.width < head.x + HEAD_RADIUS ∨ bounds.height < head.y + HEAD_RADIUS

/-- `headHitsBody`: head within `HEAD_RADIUS + BODY_RADIUS` of some segment of
a snake with a different id (own body is skipped). -/
def headHitsBody (snakeId : String) (head : Point) (allSnakes : List Snake) : Prop :=
  ∃ s ∈ allSnakes, s.id ≠ snakeId ∧ ∃ seg ∈ s.segments,
    distSq head seg < (HEAD_RADIUS + BODY_RADIUS) * (HEAD_RADIUS + BODY_RADIUS)

/-- Head-to-pellet pickup test (squared distance against
`(PELLET_RADIUS + HEAD_RADIUS)^2`). -/
def pelletHit (head : Point) (p : Pellet) : Prop :=
  distSq head ⟨p.x, p.y⟩ < (PELLET_RADIUS + HEAD_RADIUS) * (PELLET_RADIUS + HEAD_RADIUS)

/-- Net effect of the reverse-index pellet removal loop: all pellets hit by
`head` are removed, the rest keep their order.  (The source iterates indices
downward and splices each hit out; removing index `i` does not shift the
indices below `i`, so exactly the hit pellets are dropped.) -/
def keptPellets (head : Point) : List Pellet → List Pellet
  | [] => []
  | p :: ps => if pelletHit head p then keptPellets head ps else p :: keptPellets head ps

/-- `lengthGain` accumulated by the same loop: sum of the values of the hit
pellets. -/
def pelletGain (head : Point) : List Pellet → ℝ
  | [] => 0
  | p :: ps => (if pelletHit head p then p.value else 0) + pelletGain head ps

/-- Growth step: `if (lengthGain <= 0) return snake` else push
`lengthGain`-many copies of the current tail point (`for (g = 0; g <
lengthGain; g++)` runs `⌈lengthGain⌉` times for positive real gain). -/
def growSnake (s : Snake) (gain : ℝ) : Snake :=
  if gain ≤ 0 then s
  else { s with segments := s.segments ++ List.replicate ⌈gain⌉.toNat (tailPt s) }

/-- The pellet-consumption pass of `tick`: snakes processed in list order,
each seeing the pellet list left over by its predecessors. -/
def eatPass : List Snake → List Pellet → List Snake × List Pellet
  | [], pellets => ([], pellets)
  | s :: rest, pellets =>
    let s2 := growSnake s (pelletGain (headPt s) pellets)
    let out := eatPass rest (keptPellets (headPt s) pellets)
    (s2 :: out.1, out.2)

def valueSum : List Pellet → ℝ
  | [] => 0
  | p :: ps => p.value + valueSum ps

def segTotal : List Snake → ℕ
  | [] => 0
  | s :: rest => s.segments.length + segTotal rest

/-- The pellet list as seen by the `i`-th snake in the consumption pass. -/
def stagePellets (snakes : List Snake) (pellets : List Pellet) (i : ℕ) : List Pellet :=
  (eatPass (snakes.take i) pellets).2

/-- Death condition of a snake against the (fixed) post-growth snapshot. -/
def deadCond (allSnakes : List Snake) (bounds : Bounds) (s : Snake) : Prop :=
  hitWall (headPt s) bounds ∨ headHitsBody s.id (headPt s) allSnakes

/-- `Set.add` semantics: append if not already present (insertion order). -/
def insertIdem (l : List String) (x : String) : List String :=
  if x ∈ l then l else l ++ [x]

/-- The `deadIds` set built by iterating over the post-growth snakes. -/
def deadIdsList (snakes : List Snake) (bounds : Bounds) : List String :=
  snakes.foldl (fun acc s => if deadCond snakes bounds s then insertIdem acc s.id else acc) []

/-- `snakes.filter((s) => !deadIds.has(s.id))`. -/
def removeDead : List Snake → List String → List Snake
  | [], _ => []
  | s :: rest, dead =>
    if s.id ∈ dead then removeDead rest dead else s :: removeDead rest dead

/-- Pellets dropped for one dead snake, sampled from its segments:
`count = max(1, ⌊len * DEATH_PELLET_FRACTION⌋)`,
`step = max(1, ⌊len / count⌋)`, indices `min(i * step, len - 1)`. -/
def deathDrop (dead : Snake) : List Pellet :=
  let len := dead.segments.length
  let count := max 1 (Int.toNat ⌊(len : ℝ) * DEATH_PELLET_FRACTION⌋)
  let step := max 1 (len / count)
  (List.range count).map (fun i =>
    let idx := min (i * step) (len - 1)
    let seg := dead.segments.getD idx ⟨0, 0⟩
    ⟨seg.x, seg.y, PELLET_VALUE⟩)

/-- The movement stage of `tick`: each snake steered toward
`targetAngles[s.id] ?? s.angle`. -/
def movedSnakes (state : GameState) (dt : ℝ) (ta : String → Option ℝ) : List Snake :=
  state.snakes.map fun s => moveSnake s dt ((ta s.id).getD s.angle)

/-- The snakes after movement and pellet consumption (the snapshot death
detection runs against). -/
def grownSnakes (state : GameState) (dt : ℝ) (ta : String → Option ℝ) : List Snake :=
  (eatPass (movedSnakes state dt ta) state.pellets).1

/-- The pellets left after the consumption pass. -/
def eatenPellets (state : GameState) (dt : ℝ) (ta : String → Option ℝ) : List Pellet :=
  (eatPass (movedSnakes state dt ta) state.pellets).2

/-- `tick(state, dt, targetAngles)`: movement, pellet consumption, death
detection against the post-growth snapshot, simultaneous removal, pellet
drops looked up in the *input* `state.snakes`, and the periodic spawn timer
(whose random scatter position is `r1`, `r2`). -/
def tick (state : GameState) (dt : ℝ) (ta : String → Option ℝ) (r1 r2 : ℝ) :
    GameState × List String :=
  let dead := deadIdsList (grownSnakes state dt ta) state.bounds
  let survivors := removeDead (grownSnakes state dt ta) dead
  let drops := (dead.map fun id =>
    match state.snakes.find? (fun s => s.id == id) with
    | none => []
    | some d => deathDrop d).flatten
  let t1 := state.nextPelletSpawn - dt
  let spawned : List Pellet :=
    if t1 ≤ 0 then
      [⟨ARENA_PADDING + r1 * (state.bounds.width - ARENA_PADDING - ARENA_PADDING),
        ARENA_PADDING + r2 * (state.bounds.height - ARENA_PADDING - ARENA_PADDING),
        PELLET_VALUE⟩]
    else []
  ({ state with
      snakes := survivors
      pellets := eatenPellets state dt ta ++ drops ++ spawned
      nextPelletSpawn := if t1 ≤ 0 then PELLET_SPAWN_INTERVAL else t1 }, dead)

/-- The `options` object the game page passes as a fourth argument to `tick`. -/
structure TickOptions where
  playerSpeedMultiplier : ℝ

/-- A call of `tick` with a fourth `options` argument.  The `tick` function
declares only three parameters, so under JavaScript call semantics the extra
argument is discarded: the call is exactly `tick(state, dt, targetAngles)`. -/
def tickWithOptions (state : GameState) (dt : ℝ) (ta : String → Option ℝ)
    (_opts : TickOptions) (r1 r2 : ℝ) : GameState × List String :=
  tick state dt ta r1 r2

def colorsList : List String :=
  ["#33cc33", "#e74c3c", "#3498db", "#f1c40f", "#9b59b6", "#1abc9c", "#e67e22", "#2ecc71"]

def playerColor : String := "#00ff88"

/-- Coarse spawn-collision grid cell of a position (`Math.floor(x/50)` etc.;
the source encodes the pair as a string key). -/
def cellKey (x y : ℝ) : ℤ × ℤ := (⌊x / 50⌋, ⌊y / 50⌋)

/-- The rejection `do..while` of `createInitialState`: draw `x`, `y` from the
stream, retry while the grid cell is taken.  Fuel bounds the number of
retries; `none` models the (probability-zero under a fair RNG) case of the
loop not finishing within the fuel. -/
def pickPos (rng : ℕ → ℝ) (minX maxX minY maxY : ℝ) (used : List (ℤ × ℤ)) :
    ℕ → ℕ → Option (ℝ × ℝ × ℕ)
  | 0, _ => none
  | fuel + 1, idx =>
    let x := minX + rng idx * (maxX - minX)
    let y := minY + rng (idx + 1) * (maxY - minY)
    if cellKey x y ∈ used then pickPos rng minX maxX minY maxY used fuel (idx + 2)
    else some (x, y, idx + 2)

/-- The snake built for loop index `i` after the rejection loop chose
`(x, y)` and the heading draw sits at stream position `idx2`: a random
heading in `[-π, π)` and a straight tail of `INITIAL_LENGTH` segments
trailing the head at `SEGMENT_SPACING` intervals. -/
def initSnake (rng : ℕ → ℝ) (i idx2 : ℕ) (x y : ℝ) : Snake :=
  let angle := rng idx2 * (2 * Real.pi) - Real.pi
  { id := if i = 0 then "player" else "snake-" ++ toString i
    segments := (List.range INITIAL_LENGTH).map (fun s : ℕ =>
      (⟨x - Real.cos angle * (s : ℝ) * SEGMENT_SPACING,
        y - Real.sin angle * (s : ℝ) * SEGMENT_SPACING⟩ : Point))
    angle := angle
    speed := DEFAULT_SPEED
    turnSpeed := TURN_SPEED
    color := if i = 0 then playerColor else colorsList.getD (i % colorsList.length) ""
    isPlayer := decide (i = 0) }

/-- The snake-construction loop of `createInitialState`: `remaining` snakes
still to build, `i` the loop index (index 0 is the player), `idx` the next
RNG stream position, `used` the taken grid cells. -/
def buildSnakes (rng : ℕ → ℝ) (minX maxX minY maxY : ℝ) (fuel : ℕ) :
    ℕ → ℕ → ℕ → List (ℤ × ℤ) → Option (List Snake × ℕ)
  | 0, _, idx, _ => some ([], idx)
  | remaining + 1, i, idx, used =>
    match pickPos rng minX maxX minY maxY used fuel idx with
    | none => none
    | some (x, y, idx2) =>
      match buildSnakes rng minX maxX minY maxY fuel remaining (i + 1) (idx2 + 1)
          (cellKey x y :: used) with
      | none => none
      | some (rest, idxEnd) => some (initSnake rng i idx2 x y :: rest, idxEnd)

/-- The pellet-scatter loop of `createInitialState`. -/
def mkPellets (rng : ℕ → ℝ) (minX maxX minY maxY : ℝ) : ℕ → ℕ → List Pellet
  | 0, _ => []
  | n + 1, idx =>
    ⟨minX + rng idx * (maxX - minX), minY + rng (idx + 1) * (maxY - minY), PELLET_VALUE⟩ ::
      mkPellets rng minX maxX minY maxY n (idx + 2)

/-- `createInitialState(options)` with the RNG passed explicitly as a stream
and the spawn-rejection loop given retry fuel. -/
def createInitialState (rng : ℕ → ℝ) (bounds : Bounds) (numBots numPellets fuel : ℕ) :
    Option GameState :=
  let minX := ARENA_PADDING
  let maxX := bounds.width - ARENA_PADDING
  let minY := ARENA_PADDING
  let maxY := bounds.height - ARENA_PADDING
  match buildSnakes rng minX maxX minY maxY fuel numBots 0 0 [] with
  | none => none
  | some (snakes, idx) =>
    some { snakes := snakes
           pellets := mkPellets rng minX maxX minY maxY numPellets idx
           bounds := bounds
           nextSnakeId := numBots
           nextPelletSpawn := PELLET_SPAWN_INTERVAL }

/-! Concrete fixtures used by witnesses and counterexamples. -/

/-- No steering input for anyone. -/
def taNone : String → Option ℝ := fun _ => none

/-- Every snake steered toward `π`. -/
def taPi : String → Option ℝ := fun _ => some Real.pi

/-- A constant RNG stream. -/
def rngHalf : ℕ → ℝ := fun _ => 1 / 2

/-- A lone healthy snake in the middle of the arena. -/
def snakeA : Snake := ⟨"player", [⟨100, 100⟩], 0, 120, 4, "#00ff88", true⟩

def stA : GameState := ⟨[snakeA], [], ⟨3000, 3000⟩, 1, 2⟩

/-- `snakeA` after a `tick` with `dt = 1/60` and no steering input. -/
def snakeAmoved : Snake := ⟨"player", [⟨102, 100⟩], 0, 120, 4, "#00ff88", true⟩

/-- A lone snake at the arena center (room to move in every direction). -/
def snakeB : Snake := ⟨"player", [⟨1500, 1500⟩], 0, 120, 4, "#00ff88", true⟩

def stB : GameState := ⟨[snakeB], [], ⟨3000, 3000⟩, 1, 2⟩

/-- `snakeB` after a `tick` with `dt = 1/2` steered toward `π`. -/
def snakeBmoved : Snake := ⟨"player", [⟨1440, 1500⟩], Real.pi, 120, 4, "#00ff88", true⟩

/-- A lone snake with a pellet exactly at its head. -/
def stC : GameState := ⟨[snakeA], [⟨100, 100, 1⟩], ⟨3000, 3000⟩, 1, 2⟩

/-- A lone two-segment snake, properly spaced. -/
def snakeD : Snake := ⟨"player", [⟨100, 100⟩, ⟨92, 100⟩], 0, 120, 4, "#00ff88", true⟩

def stD : GameState := ⟨[snakeD], [], ⟨3000, 3000⟩, 1, 2⟩

/-- A lone snake whose head is within `HEAD_RADIUS` of the left wall. -/
def snakeE : Snake := ⟨"player", [⟨5, 100⟩], 0, 120, 4, "#00ff88", true⟩

def stE : GameState := ⟨[snakeE], [], ⟨3000, 3000⟩, 1, 2⟩

/-- A lone centered snake heading straight up. -/
def snakeG : Snake := ⟨"player", [⟨1500, 1500⟩], Real.pi / 2, 120, 4, "#00ff88", true⟩

def stG : GameState := ⟨[snakeG], [], ⟨3000, 3000⟩, 1, 2⟩

/-- The snake `createInitialState` builds from the constant-`1/2` stream:
its heading comes out `0` and its spawn point `(1500, 1500)`. -/
def sInit : Snake :=
  { id := "player"
    segments := (List.range INITIAL_LENGTH).map (fun s : ℕ =>
      (⟨1500 - Real.cos 0 * (s : ℝ) * SEGMENT_SPACING,
        1500 - Real.sin 0 * (s : ℝ) * SEGMENT_SPACING⟩ : Point))
    angle := 0
    speed := DEFAULT_SPEED
    turnSpeed := TURN_SPEED
    color := playerColor
    isPlayer := true }

def stInit : GameState := ⟨[sInit], [], ⟨3000, 3000⟩, 1, PELLET_SPAWN_INTERVAL⟩

/-- Two snakes whose heads are mutually within collision radius. -/
def snakeF1 : Snake := ⟨"a", [⟨100, 100⟩], 0, 120, 4, "#33cc33", false⟩

def snakeF2 : Snake := ⟨"b", [⟨110, 100⟩], 0, 120, 4, "#e74c3c", false⟩

def stF : GameState := ⟨[snakeF1, snakeF2], [], ⟨3000, 3000⟩, 1, 2⟩

end Slither

end

namespace Slither

theorem normalizeAngle_mem (a : ℝ) :
    -Real.pi ≤ normalizeAngle a ∧ normalizeAngle a ≤ Real.pi := by
  have hπ : (0:ℝ) < Real.pi := Real.pi_pos
  have h2π : (0:ℝ) < 2 * Real.pi := by linarith
  unfold normalizeAngle
  split_ifs with h1 h2
  · set k : ℤ := ⌈(a - Real.pi) / (2 * Real.pi)⌉ with hk
    have hle : (a - Real.pi) / (2 * Real.pi) ≤ (k : ℝ) := Int.le_ceil _
    have hlt : (k : ℝ) < (a - Real.pi) / (2 * Real.pi) + 1 := Int.ceil_lt_add_one _
    have hq : (a - Real.pi) / (2 * Real.pi) * (2 * Real.pi) = a - Real.pi :=
      div_mul_cancel₀ _ (ne_of_gt h2π)
    constructor <;> nlinarith
  · set k : ℤ := ⌈(-Real.pi - a) / (2 * Real.pi)⌉ with hk
    have hle : (-Real.pi - a) / (2 * Real.pi) ≤ (k : ℝ) := Int.le_ceil _
    have hlt : (k : ℝ) < (-Real.pi - a) / (2 * Real.pi) + 1 := Int.ceil_lt_add_one _
    have hq : (-Real.pi - a) / (2 * Real.pi) * (2 * Real.pi) = -Real.pi - a :=
      div_mul_cancel₀ _ (ne_of_gt h2π)
    constructor <;> nlinarith
  · constructor <;> linarith

theorem normalizeAngle_shift (a : ℝ) :
    ∃ k : ℤ, normalizeAngle a = a - 2 * Real.pi * k := by
  unfold normalizeAngle
  split_ifs with h1 h2
  · exact ⟨_, rfl⟩
  · refine ⟨-⌈(-Real.pi - a) / (2 * Real.pi)⌉, ?_⟩
    push_cast
    ring
  · exact ⟨0, by push_cast; ring⟩

theorem normalizeAngle_eq_self {a : ℝ} (h1 : -Real.pi ≤ a) (h2 : a ≤ Real.pi) :
    normalizeAngle a = a := by
  unfold normalizeAngle
  rw [if_neg (by linarith), if_neg (by linarith)]

theorem normalizeAngle_zero : normalizeAngle 0 = 0 :=
  normalizeAngle_eq_self (by linarith [Real.pi_pos]) (le_of_lt Real.pi_pos)

/-- Any two reals congruent mod `2π` and both of absolute value at most `π`
have the same absolute value. -/
theorem abs_eq_of_shift {x y : ℝ} (j : ℤ) (hxy : y = x + 2 * Real.pi * j)
    (hx : |x| ≤ Real.pi) (hy : |y| ≤ Real.pi) : |y| = |x| := by
  have hπ : (0:ℝ) < Real.pi := Real.pi_pos
  have hxl := abs_le.mp hx
  have hyl := abs_le.mp hy
  have hj : |(j : ℝ)| ≤ 1 := by
    have h1 : |2 * Real.pi * j| ≤ 2 * Real.pi := by
      have hyx : 2 * Real.pi * j = y - x := by linarith
      rw [hyx]
      calc |y - x| ≤ |y| + |x| := abs_sub _ _
        _ ≤ 2 * Real.pi := by linarith
    rw [abs_mul, abs_of_pos (by linarith : (0:ℝ) < 2 * Real.pi)] at h1
    nlinarith
  have hj' : |j| ≤ (1:ℤ) := by exact_mod_cast (by push_cast; exact hj : |(j:ℝ)| ≤ ((1:ℤ):ℝ))
  obtain ⟨hjl, hjr⟩ := abs_le.mp hj'
  interval_cases j
  · -- j = -1 : y = x - 2π forces x = π, y = -π
    have hx' : x = Real.pi := by push_cast at hxy; nlinarith [hyl.1, hxl.2]
    have hy' : y = -Real.pi := by push_cast at hxy; linarith
    rw [hx', hy', abs_neg]
  · push_cast at hxy; simp [hxy]
  · -- j = 1 : y = x + 2π forces x = -π, y = π
    have hx' : x = -Real.pi := by push_cast at hxy; nlinarith [hyl.2, hxl.1]
    have hy' : y = Real.pi := by push_cast at hxy; linarith
    rw [hx', hy', abs_neg]

theorem abs_normalizeAngle_shift (x : ℝ) (k : ℤ) (hx : |x| ≤ Real.pi) :
    |normalizeAngle (x + 2 * Real.pi * k)| = |x| := by
  obtain ⟨k', hk'⟩ := normalizeAngle_shift (x + 2 * Real.pi * k)
  obtain ⟨h1, h2⟩ := normalizeAngle_mem (x + 2 * Real.pi * k)
  refine abs_eq_of_shift (k - k') ?_ hx (abs_le.mpr ⟨h1, h2⟩)
  rw [hk']
  push_cast
  ring

/-! Geometry of the body-follow step. -/

theorem followStep_distSq (angle : ℝ) (prev curr : Point) :
    distSq prev (followStep angle prev curr) = SEGMENT_SPACING * SEGMENT_SPACING := by
  unfold followStep
  set d := Real.sqrt ((prev.x - curr.x) * (prev.x - curr.x) +
    (prev.y - curr.y) * (prev.y - curr.y)) with hd
  by_cases hc : d ≤ 1e-6
  · rw [if_pos hc]
    simp only [distSq, SEGMENT_SPACING]
    nlinarith [Real.sin_sq_add_cos_sq angle]
  · rw [if_neg hc]
    have hd0 : (0:ℝ) ≤ (prev.x - curr.x) * (prev.x - curr.x) +
        (prev.y - curr.y) * (prev.y - curr.y) :=
      add_nonneg (mul_self_nonneg _) (mul_self_nonneg _)
    have hdsq : d * d = (prev.x - curr.x) * (prev.x - curr.x) +
        (prev.y - curr.y) * (prev.y - curr.y) := Real.mul_self_sqrt hd0
    have hdpos : (0:ℝ) < d := lt_trans (by norm_num) (not_le.mp hc)
    simp only [distSq, SEGMENT_SPACING]
    field_simp
    nlinarith [hdsq, hdpos]

theorem followStep_dist (angle : ℝ) (prev curr : Point) :
    Real.sqrt (distSq prev (followStep angle prev curr)) = SEGMENT_SPACING := by
  rw [followStep_distSq, show SEGMENT_SPACING * SEGMENT_SPACING = SEGMENT_SPACING ^ 2 by ring,
    Real.sqrt_sq (by norm_num [SEGMENT_SPACING])]

/-- Every consecutive pair in the list produced by the body-follow loop
(leader included) is exactly `SEGMENT_SPACING` apart. -/
theorem followSegs_spacing (angle : ℝ) : ∀ (l : List Point) (prev : Point) (i : ℕ),
    i + 1 < (prev :: followSegs angle prev l).length →
    Real.sqrt (distSq ((prev :: followSegs angle prev l).getD i ⟨0, 0⟩)
      ((prev :: followSegs angle prev l).getD (i + 1) ⟨0, 0⟩)) = SEGMENT_SPACING := by
  intro l
  induction l with
  | nil => intro prev i h; simp [followSegs] at h
  | cons c rest ih =>
    intro prev i h
    cases i with
    | zero => simpa [followSegs] using followStep_dist angle prev c
    | succ j =>
      have h' : j + 1 < (followStep angle prev c ::
          followSegs angle (followStep angle prev c) rest).length := by
        simpa [followSegs] using h
      simpa [followSegs] using ih (followStep angle prev c) j h'

theorem moveSnake_id (s : Snake) (dt t : ℝ) : (moveSnake s dt t).id = s.id := rfl

theorem moveSnake_angle (s : Snake) (dt t : ℝ) :
    (moveSnake s dt t).angle =
      normalizeAngle (s.angle + normalizeAngle (t - s.angle) * min 1 (s.turnSpeed * dt)) := rfl

theorem moveSnake_turnSpeed (s : Snake) (dt t : ℝ) :
    (moveSnake s dt t).turnSpeed = s.turnSpeed := rfl

/-- Consecutive segments of a moved snake are exactly `SEGMENT_SPACING`
apart. -/
theorem moveSnake_spacing (s : Snake) (dt t : ℝ) (i : ℕ)
    (h : i + 1 < (moveSnake s dt t).segments.length) :
    Real.sqrt (distSq ((moveSnake s dt t).segments.getD i ⟨0, 0⟩)
      ((moveSnake s dt t).segments.getD (i + 1) ⟨0, 0⟩)) = SEGMENT_SPACING := by
  exact followSegs_spacing _ _ _ i h

/-- One steering update changes the heading by at most `π` times the
interpolation fraction `min 1 (turnSpeed * dt)` (measured as a normalized
angular difference). -/
theorem angle_step_bound (old target ts dt : ℝ) (h1 : 0 ≤ dt) (h2 : 0 ≤ ts) :
    |normalizeAngle (normalizeAngle (old + normalizeAngle (target - old) *
      min 1 (ts * dt)) - old)| ≤ Real.pi * min 1 (ts * dt) := by
  set m := min 1 (ts * dt) with hm
  have hm0 : 0 ≤ m := le_min zero_le_one (mul_nonneg h2 h1)
  have hm1 : m ≤ 1 := min_le_left _ _
  set diff := normalizeAngle (target - old) with hdiff
  have hdb := normalizeAngle_mem (target - old)
  have hdabs : |diff| ≤ Real.pi := abs_le.mpr hdb
  have hdelta : |diff * m| ≤ Real.pi * m := by
    rw [abs_mul, abs_of_nonneg hm0]
    exact mul_le_mul_of_nonneg_right hdabs hm0
  obtain ⟨k1, hk1⟩ := normalizeAngle_shift (old + diff * m)
  have harg : normalizeAngle (old + diff * m) - old = diff * m + 2 * Real.pi * (-k1 : ℤ) := by
    rw [hk1]; push_cast; ring
  rw [harg, abs_normalizeAngle_shift (diff * m) (-k1)
    (le_trans hdelta (by nlinarith [Real.pi_pos]))]
  exact hdelta

/-! The pellet-consumption pass. -/

theorem keptPellets_sublist (h : Point) : ∀ ps : List Pellet,
    List.Sublist (keptPellets h ps) ps := by
  intro ps
  induction ps with
  | nil => simp [keptPellets]
  | cons p rest ih =>
    rw [keptPellets]
    split_ifs with hp
    · exact ih.cons p
    · exact ih.cons₂ p

theorem pelletGain_eq (h : Point) : ∀ ps : List Pellet,
    pelletGain h ps = valueSum ps - valueSum (keptPellets h ps) := by
  intro ps
  induction ps with
  | nil => simp [pelletGain, keptPellets, valueSum]
  | cons p rest ih =>
    rw [pelletGain, keptPellets]
    split_ifs with hp
    · rw [valueSum, ih]; ring
    · rw [valueSum, valueSum, ih]; ring

theorem keptPellets_of_no_hit (h : Point) : ∀ ps : List Pellet,
    (∀ p ∈ ps, ¬ pelletHit h p) → keptPellets h ps = ps := by
  intro ps
  induction ps with
  | nil => simp [keptPellets]
  | cons p rest ih =>
    intro hno
    rw [keptPellets, if_neg (hno p (List.mem_cons_self _ _))]
    rw [ih fun q hq => hno q (List.mem_cons_of_mem _ hq)]

theorem pelletGain_of_no_hit (h : Point) : ∀ ps : List Pellet,
    (∀ p ∈ ps, ¬ pelletHit h p) → pelletGain h ps = 0 := by
  intro ps hno
  rw [pelletGain_eq, keptPellets_of_no_hit h ps hno, sub_self]

/-- For pellets with positive integer values, the gain is a natural number,
positive exactly when some pellet is hit. -/
theorem pelletGain_natCast (h : Point) : ∀ ps : List Pellet,
    (∀ p ∈ ps, ∃ n : ℕ, 1 ≤ n ∧ p.value = (n : ℝ)) →
    ∃ n : ℕ, pelletGain h ps = (n : ℝ) ∧ (0 < n ↔ ∃ p ∈ ps, pelletHit h p) := by
  intro ps
  induction ps with
  | nil => intro _; exact ⟨0, by simp [pelletGain]⟩
  | cons p rest ih =>
    intro hv
    obtain ⟨np, hnp1, hnpv⟩ := hv p (List.mem_cons_self _ _)
    obtain ⟨n, hn, hiff⟩ := ih fun q hq => hv q (List.mem_cons_of_mem _ hq)
    rw [pelletGain]
    by_cases hp : pelletHit h p
    · refine ⟨np + n, ?_, ?_⟩
      · rw [if_pos hp, hnpv, hn]; push_cast; ring
      · constructor
        · intro _; exact ⟨p, List.mem_cons_self _ _, hp⟩
        · intro _; omega
    · refine ⟨n, by rw [if_neg hp, hn, zero_add], ?_⟩
      rw [hiff]
      constructor
      · rintro ⟨q, hq, hqh⟩; exact ⟨q, List.mem_cons_of_mem _ hq, hqh⟩
      · rintro ⟨q, hq, hqh⟩
        rcases List.mem_cons.mp hq with rfl | hq'
        · exact absurd hqh hp
        · exact ⟨q, hq', hqh⟩

theorem growSnake_id (s : Snake) (g : ℝ) : (growSnake s g).id = s.id := by
  unfold growSnake; split_ifs <;> rfl

theorem growSnake_angle (s : Snake) (g : ℝ) : (growSnake s g).angle = s.angle := by
  unfold growSnake; split_ifs <;> rfl

theorem growSnake_turnSpeed (s : Snake) (g : ℝ) : (growSnake s g).turnSpeed = s.turnSpeed := by
  unfold growSnake; split_ifs <;> rfl

theorem growSnake_headPt (s : Snake) (g : ℝ) : headPt (growSnake s g) = headPt s := by
  unfold growSnake
  split_ifs with hg
  · rfl
  · cases hs : s.segments with
    | nil =>
      simp only [headPt, tailPt, hs, List.nil_append, List.getLastD_nil]
      cases hk : (⌈g⌉.toNat) <;> rfl
    | cons a l => simp [headPt, hs]

theorem growSnake_of_nonpos (s : Snake) (g : ℝ) (hg : g ≤ 0) : growSnake s g = s := by
  unfold growSnake; rw [if_pos hg]

theorem growSnake_segments_of_pos (s : Snake) (g : ℝ) (hg : ¬ g ≤ 0) :
    (growSnake s g).segments = s.segments ++ List.replicate ⌈g⌉.toNat (tailPt s) := by
  unfold growSnake; rw [if_neg hg]

theorem eatPass_fst_length : ∀ (ss : List Snake) (ps : List Pellet),
    (eatPass ss ps).1.length = ss.length := by
  intro ss
  induction ss with
  | nil => intro ps; rfl
  | cons s rest ih => intro ps; simp [eatPass, ih]

theorem eatPass_snd_sublist : ∀ (ss : List Snake) (ps : List Pellet),
    List.Sublist (eatPass ss ps).2 ps := by
  intro ss
  induction ss with
  | nil => intro ps; simp [eatPass]
  | cons s rest ih =>
    intro ps
    exact (ih (keptPellets (headPt s) ps)).trans (keptPellets_sublist _ _)

theorem eatPass_ids : ∀ (ss : List Snake) (ps : List Pellet),
    (eatPass ss ps).1.map Snake.id = ss.map Snake.id := by
  intro ss
  induction ss with
  | nil => intro ps; rfl
  | cons s rest ih => intro ps; simp [eatPass, growSnake_id, ih]

/-- Every snake output by the consumption pass is an input snake with some
number of tail copies appended; id, heading, turn speed and head position are
untouched. -/
theorem eatPass_preserve : ∀ (ss : List Snake) (ps : List Pellet) (s2 : Snake),
    s2 ∈ (eatPass ss ps).1 → ∃ s ∈ ss, s2.id = s.id ∧ s2.angle = s.angle ∧
      s2.turnSpeed = s.turnSpeed ∧ headPt s2 = headPt s ∧
      ∃ k : ℕ, s2.segments = s.segments ++ List.replicate k (tailPt s) := by
  intro ss
  induction ss with
  | nil => intro ps s2 h; simp [eatPass] at h
  | cons s rest ih =>
    intro ps s2 h
    rw [eatPass] at h
    rcases List.mem_cons.mp h with rfl | h'
    · refine ⟨s, List.mem_cons_self _ _, growSnake_id _ _, growSnake_angle _ _,
        growSnake_turnSpeed _ _, growSnake_headPt _ _, ?_⟩
      by_cases hg : pelletGain (headPt s) ps ≤ 0
      · exact ⟨0, by rw [growSnake_of_nonpos _ _ hg]; simp⟩
      · exact ⟨_, growSnake_segments_of_pos _ _ hg⟩
    · obtain ⟨t, ht, hprops⟩ := ih (keptPellets (headPt s) ps) s2 h'
      exact ⟨t, List.mem_cons_of_mem _ ht, hprops⟩

/-- The `i`-th output snake of the consumption pass is the `i`-th input
snake grown by its gain over the pellet list its predecessors left. -/
theorem eatPass_getD : ∀ (ss : List Snake) (ps : List Pellet) (i : ℕ), i < ss.length →
    (eatPass ss ps).1.getD i default =
      growSnake (ss.getD i default)
        (pelletGain (headPt (ss.getD i default)) (stagePellets ss ps i)) := by
  intro ss
  induction ss with
  | nil => intro ps i h; simp at h
  | cons s rest ih =>
    intro ps i h
    cases i with
    | zero =>
      simp only [eatPass, stagePellets, List.take_zero, List.getD_cons_zero]
    | succ j =>
      have hj : j < rest.length := by simpa using h
      have hstage : stagePellets (s :: rest) ps (j + 1) =
          stagePellets rest (keptPellets (headPt s) ps) j := by
        simp only [stagePellets, List.take_succ_cons, eatPass]
      simp only [eatPass, List.getD_cons_succ, hstage]
      exact ih (keptPellets (headPt s) ps) j hj

/-- Conservation: with positive integer pellet values, total segment growth
across the pass equals the total value removed from the pellet list. -/
theorem eatPass_conservation : ∀ (ss : List Snake) (ps : List Pellet),
    (∀ p ∈ ps, ∃ n : ℕ, 1 ≤ n ∧ p.value = (n : ℝ)) →
    (segTotal (eatPass ss ps).1 : ℝ) =
      (segTotal ss : ℝ) + valueSum ps - valueSum (eatPass ss ps).2 := by
  intro ss
  induction ss with
  | nil => intro ps _; simp [eatPass, segTotal]
  | cons s rest ih =>
    intro ps hv
    obtain ⟨n, hn, hiff⟩ := pelletGain_natCast (headPt s) ps hv
    have hv' : ∀ p ∈ keptPellets (headPt s) ps, ∃ m : ℕ, 1 ≤ m ∧ p.value = (m : ℝ) :=
      fun p hp => hv p ((keptPellets_sublist (headPt s) ps).subset hp)
    have hkept : valueSum ps = pelletGain (headPt s) ps + valueSum (keptPellets (headPt s) ps) := by
      rw [pelletGain_eq]; ring
    have hlen : ((growSnake s (pelletGain (headPt s) ps)).segments.length : ℝ) =
        (s.segments.length : ℝ) + pelletGain (headPt s) ps := by
      by_cases hg : pelletGain (headPt s) ps ≤ 0
      · have hn0 : n = 0 := by
          by_contra hne
          have : (0:ℝ) < (n:ℝ) := by exact_mod_cast Nat.pos_of_ne_zero hne
          rw [← hn] at this; linarith
        rw [growSnake_of_nonpos _ _ hg, hn, hn0]
        simp
      · rw [growSnake_segments_of_pos _ _ hg]
        simp only [List.length_append, List.length_replicate, hn, Int.ceil_natCast,
          Int.toNat_natCast]
        push_cast
        ring
    have ihr := ih (keptPellets (headPt s) ps) hv'
    simp only [eatPass, segTotal]
    push_cast
    push_cast at ihr hlen
    linarith [hkept, hlen, ihr]

/-! Death detection and removal. -/

theorem mem_insertIdem (l : List String) (y x : String) :
    x ∈ insertIdem l y ↔ x ∈ l ∨ x = y := by
  unfold insertIdem
  split_ifs with h
  · constructor
    · intro hx; exact Or.inl hx
    · rintro (hx | rfl)
      · exact hx
      · exact h
  · simp [List.mem_append]

theorem mem_foldl_deadStep (allSnakes : List Snake) (bounds : Bounds) :
    ∀ (l : List Snake) (acc : List String) (x : String),
    (x ∈ l.foldl (fun acc s => if deadCond allSnakes bounds s then insertIdem acc s.id else acc) acc)
      ↔ (x ∈ acc ∨ ∃ s ∈ l, deadCond allSnakes bounds s ∧ s.id = x) := by
  intro l
  induction l with
  | nil => intro acc x; simp
  | cons s rest ih =>
    intro acc x
    rw [List.foldl_cons]
    by_cases hdc : deadCond allSnakes bounds s
    · rw [if_pos hdc, ih]
      rw [mem_insertIdem]
      constructor
      · rintro ((hx | rfl) | ⟨t, ht, htc, htx⟩)
        · exact Or.inl hx
        · exact Or.inr ⟨s, List.mem_cons_self _ _, hdc, rfl⟩
        · exact Or.inr ⟨t, List.mem_cons_of_mem _ ht, htc, htx⟩
      · rintro (hx | ⟨t, ht, htc, htx⟩)
        · exact Or.inl (Or.inl hx)
        · rcases List.mem_cons.mp ht with rfl | ht'
          · exact Or.inl (Or.inr htx.symm)
          · exact Or.inr ⟨t, ht', htc, htx⟩
    · rw [if_neg hdc, ih]
      constructor
      · rintro (hx | ⟨t, ht, htc, htx⟩)
        · exact Or.inl hx
        · exact Or.inr ⟨t, List.mem_cons_of_mem _ ht, htc, htx⟩
      · rintro (hx | ⟨t, ht, htc, htx⟩)
        · exact Or.inl hx
        · rcases List.mem_cons.mp ht with rfl | ht'
          · exact absurd htc hdc
          · exact Or.inr ⟨t, ht', htc, htx⟩

theorem mem_deadIdsList_iff (snakes : List Snake) (bounds : Bounds) (x : String) :
    x ∈ deadIdsList snakes bounds ↔
      ∃ s ∈ snakes, deadCond snakes bounds s ∧ s.id = x := by
  unfold deadIdsList
  rw [mem_foldl_deadStep]
  simp

theorem removeDead_mem (dead : List String) : ∀ (l : List Snake) (s : Snake),
    s ∈ removeDead l dead ↔ s ∈ l ∧ s.id ∉ dead := by
  intro l
  induction l with
  | nil => intro s; simp [removeDead]
  | cons s0 rest ih =>
    intro s
    rw [removeDead]
    split_ifs with h0
    · rw [ih]
      constructor
      · rintro ⟨hs, hid⟩; exact ⟨List.mem_cons_of_mem _ hs, hid⟩
      · rintro ⟨hs, hid⟩
        rcases List.mem_cons.mp hs with rfl | hs'
        · exact absurd h0 hid
        · exact ⟨hs', hid⟩
    · constructor
      · intro hs
        rcases List.mem_cons.mp hs with rfl | hs'
        · exact ⟨List.mem_cons_self _ _, h0⟩
        · obtain ⟨h1, h2⟩ := (ih s).mp hs'
          exact ⟨List.mem_cons_of_mem _ h1, h2⟩
      · rintro ⟨hs, hid⟩
        rcases List.mem_cons.mp hs with rfl | hs'
        · exact List.mem_cons_self _ _
        · exact List.mem_cons_of_mem _ ((ih s).mpr ⟨hs', hid⟩)

theorem id_inj_of_nodup : ∀ (l : List Snake), (l.map Snake.id).Nodup →
    ∀ s ∈ l, ∀ t ∈ l, s.id = t.id → s = t := by
  intro l
  induction l with
  | nil => intro _ s hs; simp at hs
  | cons s0 rest ih =>
    intro hnd s hs t ht hst
    rw [List.map_cons, List.nodup_cons] at hnd
    rcases List.mem_cons.mp hs with rfl | hs' <;> rcases List.mem_cons.mp ht with rfl | ht'
    · rfl
    · exact absurd (hst ▸ List.mem_map_of_mem Snake.id ht') hnd.1
    · exact absurd (hst ▸ List.mem_map_of_mem Snake.id hs') hnd.1
    · exact ih hnd.2 s hs' t ht' hst

/-! Structure of a `tick` result. -/

theorem tick_snd (state : GameState) (dt : ℝ) (ta : String → Option ℝ) (r1 r2 : ℝ) :
    (tick state dt ta r1 r2).2 = deadIdsList (grownSnakes state dt ta) state.bounds := rfl

theorem tick_fst_snakes (state : GameState) (dt : ℝ) (ta : String → Option ℝ) (r1 r2 : ℝ) :
    (tick state dt ta r1 r2).1.snakes =
      removeDead (grownSnakes state dt ta)
        (deadIdsList (grownSnakes state dt ta) state.bounds) := rfl

theorem tick_fst_pellets (state : GameState) (dt : ℝ) (ta : String → Option ℝ) (r1 r2 : ℝ) :
    (tick state dt ta r1 r2).1.pellets =
      eatenPellets state dt ta ++
      ((deadIdsList (grownSnakes state dt ta) state.bounds).map fun id =>
        match state.snakes.find? (fun s => s.id == id) with
        | none => []
        | some d => deathDrop d).flatten ++
      (if state.nextPelletSpawn - dt ≤ 0 then
        [⟨ARENA_PADDING + r1 * (state.bounds.width - ARENA_PADDING - ARENA_PADDING),
          ARENA_PADDING + r2 * (state.bounds.height - ARENA_PADDING - ARENA_PADDING),
          PELLET_VALUE⟩]
       else []) := rfl

/-! Helpers for evaluating small concrete states. -/

theorem followSegs_length (angle : ℝ) : ∀ (l : List Point) (prev : Point),
    (followSegs angle prev l).length = l.length := by
  intro l
  induction l with
  | nil => intro prev; rfl
  | cons c rest ih => intro prev; simp [followSegs, ih]

theorem moveSnake_segments_length (s : Snake) (dt t : ℝ) :
    (moveSnake s dt t).segments.length = 1 + (s.segments.length - 1) := by
  simp [moveSnake, followSegs_length]
  omega

/-- A single-segment snake moved: closed form. -/
theorem moveSnake_single (id color : String) (hx hy a sp ts dt target : ℝ) (ip : Bool) :
    moveSnake ⟨id, [⟨hx, hy⟩], a, sp, ts, color, ip⟩ dt target =
      ⟨id,
       [⟨hx + Real.cos (normalizeAngle (a + normalizeAngle (target - a) * min 1 (ts * dt))) * sp * dt,
         hy + Real.sin (normalizeAngle (a + normalizeAngle (target - a) * min 1 (ts * dt))) * sp * dt⟩],
       normalizeAngle (a + normalizeAngle (target - a) * min 1 (ts * dt)), sp, ts, color, ip⟩ := rfl

/-- A two-segment snake moved: closed form. -/
theorem moveSnake_pair (id color : String) (hx hy a sp ts dt target : ℝ) (p2 : Point) (ip : Bool) :
    moveSnake ⟨id, [⟨hx, hy⟩, p2], a, sp, ts, color, ip⟩ dt target =
      (⟨id,
       [⟨hx + Real.cos (normalizeAngle (a + normalizeAngle (target - a) * min 1 (ts * dt))) * sp * dt,
         hy + Real.sin (normalizeAngle (a + normalizeAngle (target - a) * min 1 (ts * dt))) * sp * dt⟩,
        followStep (normalizeAngle (a + normalizeAngle (target - a) * min 1 (ts * dt)))
          ⟨hx + Real.cos (normalizeAngle (a + normalizeAngle (target - a) * min 1 (ts * dt))) * sp * dt,
           hy + Real.sin (normalizeAngle (a + normalizeAngle (target - a) * min 1 (ts * dt))) * sp * dt⟩
          p2],
       normalizeAngle (a + normalizeAngle (target - a) * min 1 (ts * dt)), sp, ts, color, ip⟩ : Snake) := rfl

theorem eatPass_nil_pellets : ∀ ss : List Snake, eatPass ss [] = (ss, []) := by
  intro ss
  induction ss with
  | nil => rfl
  | cons s rest ih =>
    rw [eatPass]
    have hg : pelletGain (headPt s) [] = 0 := rfl
    have hk : keptPellets (headPt s) [] = ([] : List Pellet) := rfl
    rw [hg, hk, growSnake_of_nonpos _ _ le_rfl, ih]

theorem deadIdsList_nil_of_alive (snakes : List Snake) (bounds : Bounds)
    (h : ∀ s ∈ snakes, ¬ deadCond snakes bounds s) : deadIdsList snakes bounds = [] := by
  unfold deadIdsList
  have aux : ∀ (l : List Snake), (∀ s ∈ l, ¬ deadCond snakes bounds s) → ∀ acc : List String,
      l.foldl (fun acc s => if deadCond snakes bounds s then insertIdem acc s.id else acc) acc
        = acc := by
    intro l
    induction l with
    | nil => intro _ acc; rfl
    | cons s rest ih =>
      intro hl acc
      rw [List.foldl_cons, if_neg (hl s (List.mem_cons_self _ _))]
      exact ih (fun t ht => hl t (List.mem_cons_of_mem _ ht)) acc
  exact aux snakes h []

theorem removeDead_nil : ∀ l : List Snake, removeDead l [] = l := by
  intro l
  induction l with
  | nil => rfl
  | cons s rest ih => rw [removeDead, if_neg (List.not_mem_nil _), ih]

/-- A lone snake can only die on a wall (there is no other body to hit). -/
theorem deadCond_singleton (s : Snake) (bounds : Bounds)
    (hw : ¬ hitWall (headPt s) bounds) : ¬ deadCond [s] bounds s := by
  rintro (h | ⟨t, ht, hne, -⟩)
  · exact hw h
  · rw [List.mem_singleton] at ht
    exact hne (ht ▸ rfl)

/-- Full evaluation of a pellet-free tick in which nobody dies. -/
theorem tick_no_pellets_alive (state : GameState) (dt : ℝ) (ta : String → Option ℝ)
    (r1 r2 : ℝ) (hp : state.pellets = [])
    (halive : ∀ s ∈ movedSnakes state dt ta,
      ¬ deadCond (movedSnakes state dt ta) state.bounds s) :
    (tick state dt ta r1 r2).1.snakes = movedSnakes state dt ta ∧
      (tick state dt ta r1 r2).2 = [] := by
  have hgrown : grownSnakes state dt ta = movedSnakes state dt ta := by
    unfold grownSnakes
    rw [hp, eatPass_nil_pellets]
  have hdead : deadIdsList (grownSnakes state dt ta) state.bounds = [] := by
    rw [hgrown]
    exact deadIdsList_nil_of_alive _ _ halive
  constructor
  · rw [tick_fst_snakes, hdead, hgrown, removeDead_nil]
  · rw [tick_snd, hdead]

/-- Every post-tick snake is an input snake moved by `moveSnake` (id, heading
and turn speed related accordingly). -/
theorem grownSnakes_preserve (state : GameState) (dt : ℝ) (ta : String → Option ℝ)
    (s2 : Snake) (hs2 : s2 ∈ grownSnakes state dt ta) :
    ∃ s ∈ state.snakes, s2.id = s.id ∧
      s2.angle = (moveSnake s dt ((ta s.id).getD s.angle)).angle ∧
      s2.turnSpeed = s.turnSpeed := by
  obtain ⟨m, hm, hid, hangle, hts, -, -⟩ := eatPass_preserve _ _ _ hs2
  rw [movedSnakes, List.mem_map] at hm
  obtain ⟨s, hsmem, rfl⟩ := hm
  refine ⟨s, hsmem, ?_, hangle, ?_⟩
  · rw [hid, moveSnake_id]
  · rw [hts, moveSnake_turnSpeed]

/-- C2 (amended): In each tick a snake's heading moves from its old value
by at most `π * min 1 (turnSpeed * dt)` — `π` times the interpolation
fraction — measured as a normalized angular difference.  (The claimed bound
`turnSpeed * dt` itself does not hold; see the counterexample.)  The second
conjunct ties every surviving post-tick snake's heading to the `moveSnake`
update of an input snake with the same id. -/
theorem heading_change_le_pi_mul_fraction (state : GameState) (dt : ℝ)
    (ta : String → Option ℝ) (r1 r2 : ℝ) (hdt : 0 ≤ dt) :
    (∀ s ∈ state.snakes, 0 ≤ s.turnSpeed →
      |normalizeAngle ((moveSnake s dt ((ta s.id).getD s.angle)).angle - s.angle)| ≤
        Real.pi * min 1 (s.turnSpeed * dt)) ∧
    (∀ s2 ∈ (tick state dt ta r1 r2).1.snakes, ∃ s ∈ state.snakes, s2.id = s.id ∧
      s2.angle = (moveSnake s dt ((ta s.id).getD s.angle)).angle) := by
  constructor
  · intro s hs hts
    rw [moveSnake_angle]
    exact angle_step_bound s.angle _ s.turnSpeed dt hdt hts
  · intro s2 hs2
    rw [tick_fst_snakes] at hs2
    have hg : s2 ∈ grownSnakes state dt ta := ((removeDead_mem _ _ _).mp hs2).1
    obtain ⟨s, hsmem, hid, hangle, -⟩ := grownSnakes_preserve state dt ta s2 hg
    exact ⟨s, hsmem, hid, hangle⟩

/-- Witness for C2's amended bound at a concrete state. -/
theorem heading_change_bound_witness :
    (0:ℝ) ≤ 1 / 60 ∧
    |normalizeAngle ((moveSnake snakeA (1 / 60) ((taNone snakeA.id).getD snakeA.angle)).angle -
      snakeA.angle)| ≤ Real.pi * min 1 (snakeA.turnSpeed * (1 / 60)) :=
  ⟨by norm_num,
    (heading_change_le_pi_mul_fraction stA (1 / 60) taNone 0 0 (by norm_num)).1 snakeA
      (by simp [stA]) (by norm_num [snakeA])⟩

/-- C2 counterexample:  With `turnSpeed = 4` and `dt = 1/2` the
interpolation fraction is `min 1 2 = 1`, so steering toward `π` flips the
heading from `0` to `π` in one tick: the normalized change `π` exceeds
`turnSpeed * dt = 2` (far beyond any floating-point tolerance). -/
theorem heading_rate_limit_cex :
    (tick stB (1 / 2) taPi 0 0).1.snakes = [snakeBmoved] ∧
    ¬ (|normalizeAngle (snakeBmoved.angle - snakeB.angle)| ≤ snakeB.turnSpeed * (1 / 2)) := by
  have hπ := Real.pi_pos
  have hnaπ : normalizeAngle Real.pi = Real.pi :=
    normalizeAngle_eq_self (by linarith) le_rfl
  have hangle : normalizeAngle ((0:ℝ) + normalizeAngle (Real.pi - 0) * min 1 ((4:ℝ) * (1 / 2)))
      = Real.pi := by
    have harg : (0:ℝ) + normalizeAngle (Real.pi - 0) * min 1 ((4:ℝ) * (1 / 2)) = Real.pi := by
      rw [sub_zero, hnaπ]
      norm_num
    rw [harg, hnaπ]
  have hmove : moveSnake snakeB (1 / 2) ((taPi snakeB.id).getD snakeB.angle) = snakeBmoved := by
    have ht : (taPi snakeB.id).getD snakeB.angle = Real.pi := rfl
    rw [ht]
    unfold snakeB
    rw [moveSnake_single]
    unfold snakeBmoved
    simp only [hangle, Real.cos_pi, Real.sin_pi]
    norm_num
  have hmoved : movedSnakes stB (1 / 2) taPi = [snakeBmoved] := by
    unfold movedSnakes stB
    simp only [List.map_cons, List.map_nil]
    rw [hmove]
  have halive : ∀ s ∈ movedSnakes stB (1 / 2) taPi,
      ¬ deadCond (movedSnakes stB (1 / 2) taPi) stB.bounds s := by
    rw [hmoved]
    intro s hs
    rw [List.mem_singleton] at hs
    subst hs
    apply deadCond_singleton
    simp only [hitWall, headPt, snakeBmoved, stB, HEAD_RADIUS, List.headI]
    norm_num
  refine ⟨?_, ?_⟩
  · rw [(tick_no_pellets_alive stB (1 / 2) taPi 0 0 rfl halive).1, hmoved]
  · simp only [snakeBmoved, snakeB]
    rw [sub_zero, hnaπ, abs_of_pos hπ]
    intro hcon
    linarith [Real.pi_gt_three]

/-- The `j`-th post-consumption snake, in terms of the `j`-th moved snake. -/
theorem grownSnakes_getD (state : GameState) (dt : ℝ) (ta : String → Option ℝ)
    (j : ℕ) (hj : j < (movedSnakes state dt ta).length) :
    (grownSnakes state dt ta).getD j default =
      growSnake ((movedSnakes state dt ta).getD j default)
        (pelletGain (headPt ((movedSnakes state dt ta).getD j default))
          (stagePellets (movedSnakes state dt ta) state.pellets j)) :=
  eatPass_getD _ _ j hj

/-- C3 (amended):  After any tick, every surviving organism that consumed
no pellet this tick (no pellet of the pre-tick set is within pickup radius of
its post-movement head) has all consecutive segments exactly
`SEGMENT_SPACING` apart.  (As stated over all organisms the claim fails:
a consuming organism's appended tail copies coincide with its tail; see the
counterexample.) -/
theorem spacing_invariant_no_consumption (state : GameState) (dt : ℝ)
    (ta : String → Option ℝ) (r1 r2 : ℝ) (s2 : Snake)
    (hs2 : s2 ∈ (tick state dt ta r1 r2).1.snakes)
    (hno : ∀ p ∈ state.pellets, ¬ pelletHit (headPt s2) p) (i : ℕ)
    (hi : i + 1 < s2.segments.length) :
    Real.sqrt (distSq (s2.segments.getD i ⟨0, 0⟩) (s2.segments.getD (i + 1) ⟨0, 0⟩)) =
      SEGMENT_SPACING := by
  rw [tick_fst_snakes] at hs2
  have hg : s2 ∈ grownSnakes state dt ta := ((removeDead_mem _ _ _).mp hs2).1
  obtain ⟨j, hj, hjeq⟩ := List.getElem_of_mem hg
  have hjlen : j < (movedSnakes state dt ta).length := by
    have hlen : (grownSnakes state dt ta).length = (movedSnakes state dt ta).length :=
      eatPass_fst_length _ _
    omega
  have hgetD : (grownSnakes state dt ta).getD j default = s2 := by
    rw [List.getD_eq_getElem _ _ hj, hjeq]
  set m := (movedSnakes state dt ta).getD j default with hm
  have hs2eq : s2 = growSnake m (pelletGain (headPt m)
      (stagePellets (movedSnakes state dt ta) state.pellets j)) := by
    rw [← hgetD]
    exact grownSnakes_getD state dt ta j hjlen
  have hhm : headPt m = headPt s2 := by rw [hs2eq, growSnake_headPt]
  have hnom : ∀ p ∈ stagePellets (movedSnakes state dt ta) state.pellets j,
      ¬ pelletHit (headPt m) p := by
    intro p hp
    rw [hhm]
    exact hno p ((eatPass_snd_sublist _ _).subset hp)
  have hs2m : s2 = m := by
    rw [hs2eq, pelletGain_of_no_hit _ _ hnom, growSnake_of_nonpos _ _ le_rfl]
  have hjlen' : j < state.snakes.length := by simpa [movedSnakes] using hjlen
  have hmmove : m = moveSnake (state.snakes.getD j default) dt
      ((ta (state.snakes.getD j default).id).getD (state.snakes.getD j default).angle) := by
    rw [hm]
    unfold movedSnakes
    rw [List.getD_eq_getElem _ _ (by simpa [movedSnakes] using hjlen), List.getElem_map,
      ← List.getD_eq_getElem state.snakes default hjlen']
  rw [hs2m, hmmove]
  refine moveSnake_spacing _ _ _ i ?_
  rw [← hmmove, ← hs2m]
  exact hi

/-- The heading update when steering input equals the current heading `0`. -/
theorem angle_eval_zero (td : ℝ) :
    normalizeAngle ((0:ℝ) + normalizeAngle (0 - 0) * td) = 0 := by
  rw [sub_zero, normalizeAngle_zero, zero_mul, add_zero, normalizeAngle_zero]

theorem moveSnakeA_eval : moveSnake snakeA 0 ((taNone snakeA.id).getD snakeA.angle) = snakeA := by
  have ht : (taNone snakeA.id).getD snakeA.angle = 0 := rfl
  rw [ht]
  unfold snakeA
  rw [moveSnake_single]
  simp only [angle_eval_zero, Real.cos_zero, Real.sin_zero]
  norm_num

/-- C3 counterexample:  A tick in which the lone snake eats the pellet at
its head: the two trailing copies of the tail coincide, so the consecutive
distance at indices (0, 1) of the surviving snake is `0`, not
`SEGMENT_SPACING`. -/
theorem spacing_after_growth_cex :
    (tick stC 0 taNone 0 0).1.snakes.headI.segments.length = 2 ∧
    Real.sqrt (distSq ((tick stC 0 taNone 0 0).1.snakes.headI.segments.getD 0 ⟨0, 0⟩)
      ((tick stC 0 taNone 0 0).1.snakes.headI.segments.getD 1 ⟨0, 0⟩)) = 0 ∧
    (0:ℝ) ≠ SEGMENT_SPACING := by
  have hhit : pelletHit (headPt snakeA) ⟨100, 100, 1⟩ := by
    simp only [pelletHit, distSq, headPt, snakeA, List.headI, PELLET_RADIUS, HEAD_RADIUS]
    norm_num
  have hgain : pelletGain (headPt snakeA) [⟨100, 100, 1⟩] = 1 := by
    rw [pelletGain, pelletGain, if_pos hhit]
    norm_num
  have hkept : keptPellets (headPt snakeA) [⟨100, 100, 1⟩] = [] := by
    rw [keptPellets, if_pos hhit, keptPellets]
  have hgrow : growSnake snakeA 1 =
      (⟨"player", [⟨100, 100⟩, ⟨100, 100⟩], 0, 120, 4, "#00ff88", true⟩ : Snake) := by
    unfold growSnake
    rw [if_neg (by norm_num)]
    unfold snakeA tailPt
    norm_num [Int.ceil_one, List.replicate]
  have hmoved : movedSnakes stC 0 taNone = [snakeA] := by
    unfold movedSnakes stC
    simp only [List.map_cons, List.map_nil]
    rw [moveSnakeA_eval]
  have hgrown : grownSnakes stC 0 taNone =
      [(⟨"player", [⟨100, 100⟩, ⟨100, 100⟩], 0, 120, 4, "#00ff88", true⟩ : Snake)] := by
    unfold grownSnakes
    rw [hmoved]
    show (eatPass [snakeA] stC.pellets).1 = _
    have hpel : stC.pellets = [⟨100, 100, 1⟩] := rfl
    rw [hpel, eatPass]
    simp only [hgain, hkept, hgrow, eatPass_nil_pellets]
  have halive : deadIdsList (grownSnakes stC 0 taNone) stC.bounds = [] := by
    rw [hgrown]
    apply deadIdsList_nil_of_alive
    intro s hs
    rw [List.mem_singleton] at hs
    subst hs
    apply deadCond_singleton
    simp only [hitWall, headPt, stC, HEAD_RADIUS, List.headI]
    norm_num
  have hsnakes : (tick stC 0 taNone 0 0).1.snakes =
      [(⟨"player", [⟨100, 100⟩, ⟨100, 100⟩], 0, 120, 4, "#00ff88", true⟩ : Snake)] := by
    rw [tick_fst_snakes, halive, removeDead_nil, hgrown]
  rw [hsnakes]
  refine ⟨rfl, ?_, by norm_num [SEGMENT_SPACING]⟩
  simp only [List.headI, List.getD_cons_zero, List.getD_cons_succ]
  simp only [distSq]
  norm_num

/-- Evaluation of the follow step at exact spacing: the segment stays put. -/
theorem followStep_eval_D : followStep 0 ⟨100, 100⟩ ⟨92, 100⟩ = (⟨92, 100⟩ : Point) := by
  have hs64 : Real.sqrt (64:ℝ) = 8 := by
    rw [show (64:ℝ) = 8 ^ 2 by norm_num, Real.sqrt_sq (by norm_num : (0:ℝ) ≤ 8)]
  unfold followStep
  have hin : (((⟨100, 100⟩ : Point)).x - ((⟨92, 100⟩ : Point)).x) *
      (((⟨100, 100⟩ : Point)).x - ((⟨92, 100⟩ : Point)).x) +
      (((⟨100, 100⟩ : Point)).y - ((⟨92, 100⟩ : Point)).y) *
      (((⟨100, 100⟩ : Point)).y - ((⟨92, 100⟩ : Point)).y) = (64:ℝ) := by
    norm_num
  rw [hin, hs64]
  rw [if_neg (by norm_num)]
  simp only [SEGMENT_SPACING]
  norm_num

theorem moveSnakeD_eval : moveSnake snakeD 0 ((taNone snakeD.id).getD snakeD.angle) = snakeD := by
  have ht : (taNone snakeD.id).getD snakeD.angle = 0 := rfl
  rw [ht]
  unfold snakeD
  rw [moveSnake_pair]
  simp only [angle_eval_zero, Real.cos_zero, Real.sin_zero]
  norm_num [followStep_eval_D]

/-- Witness for C3's amended invariant at a concrete two-segment snake. -/
theorem spacing_invariant_witness :
    Real.sqrt (distSq ((tick stD 0 taNone 0 0).1.snakes.headI.segments.getD 0 ⟨0, 0⟩)
      ((tick stD 0 taNone 0 0).1.snakes.headI.segments.getD 1 ⟨0, 0⟩)) = SEGMENT_SPACING := by
  have hmoved : movedSnakes stD 0 taNone = [snakeD] := by
    unfold movedSnakes stD
    simp only [List.map_cons, List.map_nil]
    rw [moveSnakeD_eval]
  have halive : ∀ s ∈ movedSnakes stD 0 taNone,
      ¬ deadCond (movedSnakes stD 0 taNone) stD.bounds s := by
    rw [hmoved]
    intro s hs
    rw [List.mem_singleton] at hs
    subst hs
    apply deadCond_singleton
    simp only [hitWall, headPt, snakeD, stD, HEAD_RADIUS, List.headI]
    norm_num
  have hsnakes : (tick stD 0 taNone 0 0).1.snakes = [snakeD] := by
    rw [(tick_no_pellets_alive stD 0 taNone 0 0 rfl halive).1, hmoved]
  have hmem : snakeD ∈ (tick stD 0 taNone 0 0).1.snakes := by
    rw [hsnakes]; exact List.mem_singleton_self _
  have hno : ∀ p ∈ stD.pellets, ¬ pelletHit (headPt snakeD) p := by
    intro p hp
    simp [stD] at hp
  have happ := spacing_invariant_no_consumption stD 0 taNone 0 0 snakeD hmem hno 0
    (by norm_num [snakeD])
  rw [hsnakes]
  simpa using happ

/-! Ids are preserved along the tick pipeline. -/

theorem movedSnakes_ids (state : GameState) (dt : ℝ) (ta : String → Option ℝ) :
    (movedSnakes state dt ta).map Snake.id = state.snakes.map Snake.id := by
  unfold movedSnakes
  rw [List.map_map]
  exact List.map_congr_left fun s _ => moveSnake_id _ _ _

theorem grownSnakes_ids (state : GameState) (dt : ℝ) (ta : String → Option ℝ) :
    (grownSnakes state dt ta).map Snake.id = state.snakes.map Snake.id := by
  unfold grownSnakes
  rw [eatPass_ids, movedSnakes_ids]

/-- C4:  A post-growth organism is marked dead exactly when its head is
within `HEAD_RADIUS` of a wall or within `HEAD_RADIUS + BODY_RADIUS`
(squared-distance comparison) of a segment of an organism with a different
id — proximity to its own segments never qualifies — and every id in
`deadIds` is absent from the returned organism list. -/
theorem death_detection_spec (state : GameState) (dt : ℝ) (ta : String → Option ℝ)
    (r1 r2 : ℝ) (hnd : (state.snakes.map Snake.id).Nodup) :
    (∀ s ∈ grownSnakes state dt ta,
      (s.id ∈ (tick state dt ta r1 r2).2 ↔
        (hitWall (headPt s) state.bounds ∨
         ∃ t ∈ grownSnakes state dt ta, t.id ≠ s.id ∧ ∃ seg ∈ t.segments,
           distSq (headPt s) seg < (HEAD_RADIUS + BODY_RADIUS) * (HEAD_RADIUS + BODY_RADIUS)))) ∧
    (∀ id ∈ (tick state dt ta r1 r2).2,
      id ∉ (tick state dt ta r1 r2).1.snakes.map Snake.id) := by
  have hndg : ((grownSnakes state dt ta).map Snake.id).Nodup := by
    rw [grownSnakes_ids]
    exact hnd
  constructor
  · intro s hs
    rw [tick_snd, mem_deadIdsList_iff]
    constructor
    · rintro ⟨t, ht, htc, htid⟩
      have hts : t = s := id_inj_of_nodup _ hndg t ht s hs htid
      subst hts
      exact htc
    · intro hcond
      exact ⟨s, hs, hcond, rfl⟩
  · intro id hid
    rw [List.mem_map]
    rintro ⟨s, hsmem, rfl⟩
    rw [tick_fst_snakes] at hsmem
    rw [tick_snd] at hid
    exact ((removeDead_mem _ _ _).mp hsmem).2 hid

theorem moveSnakeE_eval : moveSnake snakeE 0 ((taNone snakeE.id).getD snakeE.angle) = snakeE := by
  have ht : (taNone snakeE.id).getD snakeE.angle = 0 := rfl
  rw [ht]
  unfold snakeE
  rw [moveSnake_single]
  simp only [angle_eval_zero, Real.cos_zero, Real.sin_zero]
  norm_num

/-- Witness for C4: a snake whose head sits `5` units from the left wall is
reported dead and removed. -/
theorem death_detection_witness :
    ("player" ∈ (tick stE 0 taNone 0 0).2) ∧
    ("player" ∉ (tick stE 0 taNone 0 0).1.snakes.map Snake.id) := by
  have hmoved : movedSnakes stE 0 taNone = [snakeE] := by
    unfold movedSnakes stE
    simp only [List.map_cons, List.map_nil]
    rw [moveSnakeE_eval]
  have hgrown : grownSnakes stE 0 taNone = [snakeE] := by
    unfold grownSnakes
    rw [hmoved]
    show (eatPass [snakeE] stE.pellets).1 = _
    have hpel : stE.pellets = [] := rfl
    rw [hpel, eatPass_nil_pellets]
  have hwall : hitWall (headPt snakeE) stE.bounds := by
    simp only [hitWall, headPt, snakeE, stE, HEAD_RADIUS, List.headI]
    norm_num
  have h := death_detection_spec stE 0 taNone 0 0 (by simp [stE, snakeE])
  have hmem : snakeE ∈ grownSnakes stE 0 taNone := by
    rw [hgrown]
    exact List.mem_singleton_self _
  have hdead : "player" ∈ (tick stE 0 taNone 0 0).2 :=
    (h.1 snakeE hmem).mpr (Or.inl hwall)
  exact ⟨hdead, h.2 "player" hdead⟩

/-- C5:  Death is evaluated for every organism against the same
pre-removal snapshot and all dead organisms are removed simultaneously: two
organisms that mutually end the tick within collision radius of each other's
bodies both appear in `deadIds` and both are removed. -/
theorem mutual_collision_both_die (state : GameState) (dt : ℝ) (ta : String → Option ℝ)
    (r1 r2 : ℝ) (s1 s2 : Snake)
    (h1 : s1 ∈ grownSnakes state dt ta) (h2 : s2 ∈ grownSnakes state dt ta)
    (hne : s1.id ≠ s2.id)
    (h12 : ∃ seg ∈ s2.segments,
      distSq (headPt s1) seg < (HEAD_RADIUS + BODY_RADIUS) * (HEAD_RADIUS + BODY_RADIUS))
    (h21 : ∃ seg ∈ s1.segments,
      distSq (headPt s2) seg < (HEAD_RADIUS + BODY_RADIUS) * (HEAD_RADIUS + BODY_RADIUS)) :
    s1.id ∈ (tick state dt ta r1 r2).2 ∧ s2.id ∈ (tick state dt ta r1 r2).2 ∧
    s1.id ∉ (tick state dt ta r1 r2).1.snakes.map Snake.id ∧
    s2.id ∉ (tick state dt ta r1 r2).1.snakes.map Snake.id := by
  have habs : ∀ id, id ∈ (tick state dt ta r1 r2).2 →
      id ∉ (tick state dt ta r1 r2).1.snakes.map Snake.id := by
    intro id hid
    rw [List.mem_map]
    rintro ⟨s, hsmem, rfl⟩
    rw [tick_fst_snakes] at hsmem
    rw [tick_snd] at hid
    exact ((removeDead_mem _ _ _).mp hsmem).2 hid
  have hd1 : s1.id ∈ (tick state dt ta r1 r2).2 := by
    rw [tick_snd, mem_deadIdsList_iff]
    exact ⟨s1, h1, Or.inr ⟨s2, h2, hne.symm, h12⟩, rfl⟩
  have hd2 : s2.id ∈ (tick state dt ta r1 r2).2 := by
    rw [tick_snd, mem_deadIdsList_iff]
    exact ⟨s2, h2, Or.inr ⟨s1, h1, hne, h21⟩, rfl⟩
  exact ⟨hd1, hd2, habs _ hd1, habs _ hd2⟩

theorem moveSnakeF1_eval :
    moveSnake snakeF1 0 ((taNone snakeF1.id).getD snakeF1.angle) = snakeF1 := by
  have ht : (taNone snakeF1.id).getD snakeF1.angle = 0 := rfl
  rw [ht]
  unfold snakeF1
  rw [moveSnake_single]
  simp only [angle_eval_zero, Real.cos_zero, Real.sin_zero]
  norm_num

theorem moveSnakeF2_eval :
    moveSnake snakeF2 0 ((taNone snakeF2.id).getD snakeF2.angle) = snakeF2 := by
  have ht : (taNone snakeF2.id).getD snakeF2.angle = 0 := rfl
  rw [ht]
  unfold snakeF2
  rw [moveSnake_single]
  simp only [angle_eval_zero, Real.cos_zero, Real.sin_zero]
  norm_num

/-- Witness for C5: two single-segment snakes `10` units apart both die in
the same tick. -/
theorem mutual_collision_witness :
    ("a" ∈ (tick stF 0 taNone 0 0).2) ∧ ("b" ∈ (tick stF 0 taNone 0 0).2) := by
  have hmoved : movedSnakes stF 0 taNone = [snakeF1, snakeF2] := by
    unfold movedSnakes stF
    simp only [List.map_cons, List.map_nil]
    rw [moveSnakeF1_eval, moveSnakeF2_eval]
  have hgrown : grownSnakes stF 0 taNone = [snakeF1, snakeF2] := by
    unfold grownSnakes
    rw [hmoved]
    show (eatPass [snakeF1, snakeF2] stF.pellets).1 = _
    have hpel : stF.pellets = [] := rfl
    rw [hpel, eatPass_nil_pellets]
  have h12 : ∃ seg ∈ snakeF2.segments,
      distSq (headPt snakeF1) seg < (HEAD_RADIUS + BODY_RADIUS) * (HEAD_RADIUS + BODY_RADIUS) := by
    refine ⟨⟨110, 100⟩, by simp [snakeF2], ?_⟩
    simp only [distSq, headPt, snakeF1, List.headI, HEAD_RADIUS, BODY_RADIUS]
    norm_num
  have h21 : ∃ seg ∈ snakeF1.segments,
      distSq (headPt snakeF2) seg < (HEAD_RADIUS + BODY_RADIUS) * (HEAD_RADIUS + BODY_RADIUS) := by
    refine ⟨⟨100, 100⟩, by simp [snakeF1], ?_⟩
    simp only [distSq, headPt, snakeF2, List.headI, HEAD_RADIUS, BODY_RADIUS]
    norm_num
  have h := mutual_collision_both_die stF 0 taNone 0 0 snakeF1 snakeF2
    (by rw [hgrown]; exact List.mem_cons_self _ _)
    (by rw [hgrown]; exact List.mem_cons_of_mem _ (List.mem_singleton_self _))
    (by simp [snakeF1, snakeF2]) h12 h21
  exact ⟨h.1, h.2.1⟩

/-- C6:  In the pellet-consumption pass: the remaining pellets are a
sublist of the input pellets (each pellet is removed at most once and, once
removed, is unavailable to snakes checked later); with positive integer
pellet values the total segment-count increase equals the total value
removed; and each snake's new segment list is its old one plus `k` copies of
its current tail point, where `k` is exactly its gain over the pellet list
its predecessors left and is positive exactly when some such pellet is
within pickup radius of its head. -/
theorem pellet_consumption_conservation (ss : List Snake) (ps : List Pellet)
    (hv : ∀ p ∈ ps, ∃ n : ℕ, 1 ≤ n ∧ p.value = (n : ℝ)) :
    List.Sublist (eatPass ss ps).2 ps ∧
    ((segTotal (eatPass ss ps).1 : ℝ) =
      (segTotal ss : ℝ) + valueSum ps - valueSum (eatPass ss ps).2) ∧
    (∀ i, i < ss.length → ∃ k : ℕ,
      (k : ℝ) = pelletGain (headPt (ss.getD i default)) (stagePellets ss ps i) ∧
      ((eatPass ss ps).1.getD i default).segments =
        (ss.getD i default).segments ++ List.replicate k (tailPt (ss.getD i default)) ∧
      (0 < k ↔ ∃ p ∈ stagePellets ss ps i, pelletHit (headPt (ss.getD i default)) p)) := by
  refine ⟨eatPass_snd_sublist ss ps, eatPass_conservation ss ps hv, ?_⟩
  intro i hi
  have hstage := eatPass_getD ss ps i hi
  set s := ss.getD i default with hs
  have hvs : ∀ p ∈ stagePellets ss ps i, ∃ n : ℕ, 1 ≤ n ∧ p.value = (n : ℝ) :=
    fun p hp => hv p ((eatPass_snd_sublist _ _).subset hp)
  obtain ⟨n, hn, hiff⟩ := pelletGain_natCast (headPt s) (stagePellets ss ps i) hvs
  refine ⟨n, hn.symm, ?_, hiff⟩
  rw [hstage]
  by_cases hg : pelletGain (headPt s) (stagePellets ss ps i) ≤ 0
  · have hn0 : n = 0 := by
      by_contra hne
      have hpos : (0:ℝ) < (n:ℝ) := by exact_mod_cast Nat.pos_of_ne_zero hne
      rw [← hn] at hpos
      linarith
    rw [growSnake_of_nonpos _ _ hg, hn0]
    simp
  · rw [growSnake_segments_of_pos _ _ hg, hn, Int.ceil_natCast, Int.toNat_natCast]

/-- Witness for C6 at a concrete one-snake, one-pellet pass. -/
theorem pellet_consumption_witness :
    (∀ p ∈ [(⟨100, 100, 1⟩ : Pellet)], ∃ n : ℕ, 1 ≤ n ∧ p.value = (n : ℝ)) ∧
    ((segTotal (eatPass [snakeA] [⟨100, 100, 1⟩]).1 : ℝ) =
      (segTotal [snakeA] : ℝ) + valueSum [⟨100, 100, 1⟩] -
        valueSum (eatPass [snakeA] [⟨100, 100, 1⟩]).2) := by
  have hv : ∀ p ∈ [(⟨100, 100, 1⟩ : Pellet)], ∃ n : ℕ, 1 ≤ n ∧ p.value = (n : ℝ) := by
    intro p hp
    rw [List.mem_singleton] at hp
    subst hp
    exact ⟨1, le_rfl, by norm_num⟩
  exact ⟨hv, (pellet_consumption_conservation [snakeA] [⟨100, 100, 1⟩] hv).2.1⟩

/-- `tick` only reads the target-heading map at the ids of live snakes. -/
theorem tick_congr (state : GameState) (dt : ℝ) (r1 r2 : ℝ)
    (ta1 ta2 : String → Option ℝ) (h : ∀ s ∈ state.snakes, ta1 s.id = ta2 s.id) :
    tick state dt ta1 r1 r2 = tick state dt ta2 r1 r2 := by
  have hmoved : movedSnakes state dt ta1 = movedSnakes state dt ta2 := by
    unfold movedSnakes
    exact List.map_congr_left fun s hs => by rw [h s hs]
  have hg : grownSnakes state dt ta1 = grownSnakes state dt ta2 := by
    unfold grownSnakes
    rw [hmoved]
  have he : eatenPellets state dt ta1 = eatenPellets state dt ta2 := by
    unfold eatenPellets
    rw [hmoved]
  simp only [tick, hg, he]

/-- C7:  An organism whose id is absent from the target-heading map keeps
its heading unchanged across the tick (given its stored angle is normalized
to `[-π, π]`); and entries for ids matching no live organism have no effect
on the tick's result. -/
theorem missing_target_heading_behavior (state : GameState) (dt : ℝ)
    (ta : String → Option ℝ) (r1 r2 : ℝ)
    (hnd : (state.snakes.map Snake.id).Nodup) :
    (∀ s ∈ state.snakes, ta s.id = none → -Real.pi ≤ s.angle → s.angle ≤ Real.pi →
      ∀ s2 ∈ (tick state dt ta r1 r2).1.snakes, s2.id = s.id → s2.angle = s.angle) ∧
    (∀ (id : String) (v : Option ℝ), id ∉ state.snakes.map Snake.id →
      tick state dt (Function.update ta id v) r1 r2 = tick state dt ta r1 r2) := by
  constructor
  · intro s hs hta hge hle s2 hs2 hid
    rw [tick_fst_snakes] at hs2
    have hgmem : s2 ∈ grownSnakes state dt ta := ((removeDead_mem _ _ _).mp hs2).1
    obtain ⟨t, htmem, hid2, hangle, -⟩ := grownSnakes_preserve state dt ta s2 hgmem
    have hts : t = s := id_inj_of_nodup _ hnd t htmem s hs (by rw [← hid2, hid])
    subst hts
    rw [hangle, moveSnake_angle, hta]
    simp only [Option.getD_none]
    rw [sub_self, normalizeAngle_zero, zero_mul, add_zero]
    exact normalizeAngle_eq_self hge hle
  · intro id v hid
    apply tick_congr
    intro s hs
    have hne : s.id ≠ id := fun hc => hid (hc ▸ List.mem_map_of_mem Snake.id hs)
    exact Function.update_noteq hne v ta

theorem moveSnake_headPt_eval (s : Snake) (dt t : ℝ) :
    headPt (moveSnake s dt t) =
      ⟨(headPt s).x + Real.cos (moveSnake s dt t).angle * s.speed * dt,
       (headPt s).y + Real.sin (moveSnake s dt t).angle * s.speed * dt⟩ := rfl

/-- Witness for C7: a snake heading `π/2` with no steering entry keeps its
heading over a real movement step, and an entry for an unknown id is
inert. -/
theorem missing_target_witness :
    ((tick stG (1 / 60) taNone 0 0).1.snakes.headI.angle = Real.pi / 2) ∧
    (tick stG (1 / 60) (Function.update taNone "ghost" (some 1)) 0 0 =
      tick stG (1 / 60) taNone 0 0) := by
  set m := moveSnake snakeG (1 / 60) ((taNone snakeG.id).getD snakeG.angle) with hm
  have hmoved : movedSnakes stG (1 / 60) taNone = [m] := by
    unfold movedSnakes stG
    simp only [List.map_cons, List.map_nil]
  have halive : ∀ s ∈ movedSnakes stG (1 / 60) taNone,
      ¬ deadCond (movedSnakes stG (1 / 60) taNone) stG.bounds s := by
    rw [hmoved]
    intro s hs
    rw [List.mem_singleton] at hs
    subst hs
    apply deadCond_singleton
    rw [moveSnake_headPt_eval]
    set θ := (moveSnake snakeG (1 / 60) ((taNone snakeG.id).getD snakeG.angle)).angle with hθ
    have hc1 := Real.neg_one_le_cos θ
    have hc2 := Real.cos_le_one θ
    have hs1 := Real.neg_one_le_sin θ
    have hs2 := Real.sin_le_one θ
    simp only [hitWall, headPt, snakeG, stG, HEAD_RADIUS, List.headI]
    push_neg
    refine ⟨by nlinarith, by nlinarith, by nlinarith, by nlinarith⟩
  have hsnakes : (tick stG (1 / 60) taNone 0 0).1.snakes = [m] := by
    rw [(tick_no_pellets_alive stG (1 / 60) taNone 0 0 rfl halive).1, hmoved]
  have hthm := missing_target_heading_behavior stG (1 / 60) taNone 0 0 (by simp [stG, snakeG])
  constructor
  · have hmem : m ∈ (tick stG (1 / 60) taNone 0 0).1.snakes := by
      rw [hsnakes]
      exact List.mem_singleton_self _
    have hres := hthm.1 snakeG (by simp [stG]) rfl
      (by have := Real.pi_pos; simp only [snakeG]; linarith)
      (by have := Real.pi_pos; simp only [snakeG]; linarith)
      m hmem (moveSnake_id _ _ _)
    rw [hsnakes]
    exact hres
  · exact hthm.2 "ghost" (some 1) (by simp [stG, snakeG])

theorem moveSnakeA60_eval :
    moveSnake snakeA (1 / 60) ((taNone snakeA.id).getD snakeA.angle) = snakeAmoved := by
  have ht : (taNone snakeA.id).getD snakeA.angle = 0 := rfl
  rw [ht]
  unfold snakeA
  rw [moveSnake_single]
  unfold snakeAmoved
  simp only [angle_eval_zero, Real.cos_zero, Real.sin_zero]
  norm_num

/-- C1 (code bug):  The page calls `tick` with a fourth `options`
argument carrying the player speed multiplier, but `tick` declares only
three parameters, so JavaScript discards it: the call equals the plain
three-argument `tick`, and the player's head advances by `speed * dt`
(here `102 = 100 + 120/60`), not by `speed * multiplier * dt` (`103`),
whatever the multiplier. -/
theorem tick_ignores_speed_multiplier :
    (∀ (state : GameState) (dt : ℝ) (ta : String → Option ℝ) (opts : TickOptions) (r1 r2 : ℝ),
      tickWithOptions state dt ta opts r1 r2 = tick state dt ta r1 r2) ∧
    ((tickWithOptions stA (1 / 60) taNone ⟨3 / 2⟩ 0 0).1.snakes.headI.segments.headI.x = 102) ∧
    ((102 : ℝ) ≠ 100 + 120 * (3 / 2) * (1 / 60)) := by
  refine ⟨fun _ _ _ _ _ _ => rfl, ?_, by norm_num⟩
  have hmoved : movedSnakes stA (1 / 60) taNone = [snakeAmoved] := by
    unfold movedSnakes stA
    simp only [List.map_cons, List.map_nil]
    rw [moveSnakeA60_eval]
  have halive : ∀ s ∈ movedSnakes stA (1 / 60) taNone,
      ¬ deadCond (movedSnakes stA (1 / 60) taNone) stA.bounds s := by
    rw [hmoved]
    intro s hs
    rw [List.mem_singleton] at hs
    subst hs
    apply deadCond_singleton
    simp only [hitWall, headPt, snakeAmoved, stA, HEAD_RADIUS, List.headI]
    norm_num
  have hsnakes : (tickWithOptions stA (1 / 60) taNone ⟨3 / 2⟩ 0 0).1.snakes = [snakeAmoved] := by
    show (tick stA (1 / 60) taNone 0 0).1.snakes = [snakeAmoved]
    rw [(tick_no_pellets_alive stA (1 / 60) taNone 0 0 rfl halive).1, hmoved]
  rw [hsnakes]
  rfl

/-- C10:  The pellets in a tick's result are the post-consumption pellets
followed by, for each dead id in order, the drop computed from the organism
with that id in the *input* state (its start-of-tick, pre-movement body),
then the optional timer-spawned pellet; each dead id resolves to an input
snake, the drop count is `max 1 ⌊len * DEATH_PELLET_FRACTION⌋`, and every
dropped pellet has value `PELLET_VALUE` and sits at one of that snake's
start-of-tick segment positions. -/
theorem death_pellet_drop_spec (state : GameState) (dt : ℝ) (ta : String → Option ℝ)
    (r1 r2 : ℝ) (hlen : ∀ s ∈ state.snakes, 1 ≤ s.segments.length) :
    ((tick state dt ta r1 r2).1.pellets =
      eatenPellets state dt ta ++
      ((tick state dt ta r1 r2).2.map fun id =>
        match state.snakes.find? (fun s => s.id == id) with
        | none => []
        | some d => deathDrop d).flatten ++
      (if state.nextPelletSpawn - dt ≤ 0 then
        [⟨ARENA_PADDING + r1 * (state.bounds.width - ARENA_PADDING - ARENA_PADDING),
          ARENA_PADDING + r2 * (state.bounds.height - ARENA_PADDING - ARENA_PADDING),
          PELLET_VALUE⟩]
       else [])) ∧
    (∀ id ∈ (tick state dt ta r1 r2).2, ∃ d,
      state.snakes.find? (fun s => s.id == id) = some d ∧ d.id = id ∧
      (deathDrop d).length =
        max 1 (Int.toNat ⌊(d.segments.length : ℝ) * DEATH_PELLET_FRACTION⌋) ∧
      (∀ q ∈ deathDrop d, q.value = PELLET_VALUE ∧ ∃ j, j < d.segments.length ∧
        q.x = (d.segments.getD j ⟨0, 0⟩).x ∧ q.y = (d.segments.getD j ⟨0, 0⟩).y)) := by
  constructor
  · rfl
  · intro id hid
    rw [tick_snd, mem_deadIdsList_iff] at hid
    obtain ⟨s, hsg, -, hsid⟩ := hid
    have hmapmem : s.id ∈ state.snakes.map Snake.id := by
      rw [← grownSnakes_ids state dt ta]
      exact List.mem_map_of_mem _ hsg
    rw [List.mem_map] at hmapmem
    obtain ⟨s0, hs0, hs0id⟩ := hmapmem
    have hfind : ∃ d, state.snakes.find? (fun t => t.id == id) = some d := by
      rw [← Option.isSome_iff_exists, List.find?_isSome]
      exact ⟨s0, hs0, by rw [hs0id, hsid]; exact beq_self_eq_true _⟩
    obtain ⟨d, hd⟩ := hfind
    have hdmem : d ∈ state.snakes := List.mem_of_find?_eq_some hd
    have hdid : d.id = id := by
      have := List.find?_some hd
      simpa using this
    have hdlen : 1 ≤ d.segments.length := hlen d hdmem
    refine ⟨d, hd, hdid, ?_, ?_⟩
    · simp only [deathDrop, List.length_map, List.length_range]
    · intro q hq
      simp only [deathDrop, List.mem_map, List.mem_range] at hq
      obtain ⟨i, hi, hqeq⟩ := hq
      subst hqeq
      refine ⟨rfl, min (i * max 1 (d.segments.length /
        max 1 (Int.toNat ⌊(d.segments.length : ℝ) * DEATH_PELLET_FRACTION⌋)))
        (d.segments.length - 1), ?_, rfl, rfl⟩
      have hlt : d.segments.length - 1 < d.segments.length := by omega
      exact lt_of_le_of_lt (min_le_right _ _) hlt

/-- Witness for C10: a wall death drops one pellet at the dead snake's only
start-of-tick segment. -/
theorem death_pellet_drop_witness :
    (∀ s ∈ stE.snakes, 1 ≤ s.segments.length) ∧
    ((tick stE 0 taNone 0 0).1.pellets =
      eatenPellets stE 0 taNone ++
      ((tick stE 0 taNone 0 0).2.map fun id =>
        match stE.snakes.find? (fun s => s.id == id) with
        | none => []
        | some d => deathDrop d).flatten ++
      (if stE.nextPelletSpawn - 0 ≤ 0 then
        [⟨ARENA_PADDING + 0 * (stE.bounds.width - ARENA_PADDING - ARENA_PADDING),
          ARENA_PADDING + 0 * (stE.bounds.height - ARENA_PADDING - ARENA_PADDING),
          PELLET_VALUE⟩]
       else [])) := by
  have hl : ∀ s ∈ stE.snakes, 1 ≤ s.segments.length := by
    intro s hs
    rw [show stE.snakes = [snakeE] from rfl, List.mem_singleton] at hs
    subst hs
    norm_num [snakeE]
  exact ⟨hl, (death_pellet_drop_spec stE 0 taNone 0 0 hl).1⟩

/-! Operational termination of the `normalizeAngle` loops. -/

theorem subLoop_stay (n : ℕ) (a : ℝ) (h : ¬ Real.pi < a) : subLoop n a = some a := by
  cases n <;> rw [subLoop, if_neg h]

theorem addLoop_stay (n : ℕ) (a : ℝ) (h : ¬ a < -Real.pi) : addLoop n a = some a := by
  cases n <;> rw [addLoop, if_neg h]

theorem subLoop_run : ∀ (n : ℕ) (a : ℝ), ⌈(a - Real.pi) / (2 * Real.pi)⌉.toNat ≤ n →
    subLoop n a = some (if Real.pi < a then
      a - 2 * Real.pi * ⌈(a - Real.pi) / (2 * Real.pi)⌉ else a) := by
  intro n
  induction n with
  | zero =>
    intro a h
    by_cases hc : Real.pi < a
    · exfalso
      have hpos : 0 < (a - Real.pi) / (2 * Real.pi) :=
        div_pos (by linarith) (by linarith [Real.pi_pos])
      have h1 : (1:ℤ) ≤ ⌈(a - Real.pi) / (2 * Real.pi)⌉ := Int.ceil_pos.mpr hpos
      omega
    · rw [subLoop_stay _ _ hc, if_neg hc]
  | succ n ih =>
    intro a h
    by_cases hc : Real.pi < a
    · have hceil : ⌈(a - 2 * Real.pi - Real.pi) / (2 * Real.pi)⌉ =
          ⌈(a - Real.pi) / (2 * Real.pi)⌉ - 1 := by
        have harg : (a - 2 * Real.pi - Real.pi) / (2 * Real.pi) =
            (a - Real.pi) / (2 * Real.pi) - 1 := by
          field_simp
          ring
        rw [harg, Int.ceil_sub_one]
      have h1 : (1:ℤ) ≤ ⌈(a - Real.pi) / (2 * Real.pi)⌉ :=
        Int.ceil_pos.mpr (div_pos (by linarith) (by linarith [Real.pi_pos]))
      rw [subLoop, if_pos hc, if_pos hc,
        ih (a - 2 * Real.pi) (by rw [hceil]; omega), hceil]
      by_cases hc2 : Real.pi < a - 2 * Real.pi
      · rw [if_pos hc2]
        congr 1
        push_cast
        ring
      · rw [if_neg hc2]
        have hceq : ⌈(a - Real.pi) / (2 * Real.pi)⌉ = 1 := by
          have h2π : (0:ℝ) < 2 * Real.pi := by linarith [Real.pi_pos]
          rw [Int.ceil_eq_iff]
          constructor
          · push_cast
            have hp := div_pos (show (0:ℝ) < a - Real.pi by linarith) h2π
            linarith
          · push_cast
            rw [div_le_one h2π]
            linarith
        rw [hceq]
        congr 1
        push_cast
        ring
    · rw [subLoop_stay _ _ hc, if_neg hc]

theorem addLoop_run : ∀ (n : ℕ) (a : ℝ), ⌈(-Real.pi - a) / (2 * Real.pi)⌉.toNat ≤ n →
    addLoop n a = some (if a < -Real.pi then
      a + 2 * Real.pi * ⌈(-Real.pi - a) / (2 * Real.pi)⌉ else a) := by
  intro n
  induction n with
  | zero =>
    intro a h
    by_cases hc : a < -Real.pi
    · exfalso
      have hpos : 0 < (-Real.pi - a) / (2 * Real.pi) :=
        div_pos (by linarith) (by linarith [Real.pi_pos])
      have h1 : (1:ℤ) ≤ ⌈(-Real.pi - a) / (2 * Real.pi)⌉ := Int.ceil_pos.mpr hpos
      omega
    · rw [addLoop_stay _ _ hc, if_neg hc]
  | succ n ih =>
    intro a h
    by_cases hc : a < -Real.pi
    · have hceil : ⌈(-Real.pi - (a + 2 * Real.pi)) / (2 * Real.pi)⌉ =
          ⌈(-Real.pi - a) / (2 * Real.pi)⌉ - 1 := by
        have harg : (-Real.pi - (a + 2 * Real.pi)) / (2 * Real.pi) =
            (-Real.pi - a) / (2 * Real.pi) - 1 := by
          field_simp
          ring
        rw [harg, Int.ceil_sub_one]
      have h1 : (1:ℤ) ≤ ⌈(-Real.pi - a) / (2 * Real.pi)⌉ :=
        Int.ceil_pos.mpr (div_pos (by linarith) (by linarith [Real.pi_pos]))
      rw [addLoop, if_pos hc, if_pos hc,
        ih (a + 2 * Real.pi) (by rw [hceil]; omega), hceil]
      by_cases hc2 : a + 2 * Real.pi < -Real.pi
      · rw [if_pos hc2]
        congr 1
        push_cast
        ring
      · rw [if_neg hc2]
        have hceq : ⌈(-Real.pi - a) / (2 * Real.pi)⌉ = 1 := by
          have h2π : (0:ℝ) < 2 * Real.pi := by linarith [Real.pi_pos]
          rw [Int.ceil_eq_iff]
          constructor
          · push_cast
            have hp := div_pos (show (0:ℝ) < -Real.pi - a by linarith) h2π
            linarith
          · push_cast
            rw [div_le_one h2π]
            linarith
        rw [hceq]
        congr 1
        push_cast
        ring
    · rw [addLoop_stay _ _ hc, if_neg hc]

/-- The while loops of `normalizeAngle` terminate on every real input, with
the closed-form value. -/
theorem normalizeAngleIter_terminates (a : ℝ) :
    ∃ fuel : ℕ, normalizeAngleIter fuel a = some (normalizeAngle a) := by
  by_cases h1 : Real.pi < a
  · refine ⟨⌈(a - Real.pi) / (2 * Real.pi)⌉.toNat, ?_⟩
    unfold normalizeAngleIter
    rw [subLoop_run _ a le_rfl, if_pos h1, Option.some_bind]
    have hb := normalizeAngle_mem a
    unfold normalizeAngle at hb
    rw [if_pos h1] at hb
    rw [addLoop_stay _ _ (not_lt.mpr hb.1)]
    unfold normalizeAngle
    rw [if_pos h1]
  · by_cases h2 : a < -Real.pi
    · refine ⟨⌈(-Real.pi - a) / (2 * Real.pi)⌉.toNat, ?_⟩
      unfold normalizeAngleIter
      rw [subLoop_stay _ _ h1, Option.some_bind, addLoop_run _ a le_rfl, if_pos h2]
      unfold normalizeAngle
      rw [if_neg h1, if_pos h2]
    · refine ⟨0, ?_⟩
      unfold normalizeAngleIter
      rw [subLoop_stay _ _ h1, Option.some_bind, addLoop_stay _ _ h2]
      unfold normalizeAngle
      rw [if_neg h1, if_neg h2]

/-- C9:  The embedded `tick` is total: its only loop-shaped pieces are
the `normalizeAngle` while loops, which terminate on every (finite) real
input with the closed-form value used by the embedding, and the body-follow
step takes the guarded substitution branch — placing the segment
`SEGMENT_SPACING` behind the leader, with no division — whenever the
leader distance is within `1e-6`. -/
theorem tick_totality :
    (∀ a : ℝ, ∃ fuel : ℕ, normalizeAngleIter fuel a = some (normalizeAngle a)) ∧
    (∀ (angle : ℝ) (prev curr : Point) (rest : List Point),
      Real.sqrt ((prev.x - curr.x) * (prev.x - curr.x) +
        (prev.y - curr.y) * (prev.y - curr.y)) ≤ 1e-6 →
      followSegs angle prev (curr :: rest) =
        (⟨prev.x - Real.cos angle * SEGMENT_SPACING,
          prev.y - Real.sin angle * SEGMENT_SPACING⟩ : Point) ::
        followSegs angle ⟨prev.x - Real.cos angle * SEGMENT_SPACING,
          prev.y - Real.sin angle * SEGMENT_SPACING⟩ rest) := by
  constructor
  · exact normalizeAngleIter_terminates
  · intro angle prev curr rest hd
    have hstep : followStep angle prev curr =
        ⟨prev.x - Real.cos angle * SEGMENT_SPACING,
         prev.y - Real.sin angle * SEGMENT_SPACING⟩ := by
      unfold followStep
      rw [if_pos hd]
    rw [followSegs, hstep]

/-- Witness for C9 at a concrete angle and a degenerate (coincident)
segment pair. -/
theorem tick_totality_witness :
    (∃ fuel : ℕ, normalizeAngleIter fuel 5 = some (normalizeAngle 5)) ∧
    followSegs 0 ⟨0, 0⟩ [⟨0, 0⟩] =
      [⟨0 - Real.cos 0 * SEGMENT_SPACING, 0 - Real.sin 0 * SEGMENT_SPACING⟩] := by
  constructor
  · exact tick_totality.1 5
  · have h := tick_totality.2 0 ⟨0, 0⟩ ⟨0, 0⟩ []
      (by norm_num [Real.sqrt_zero])
    simpa using h

/-! State construction. -/

/-- Whatever the rejection loop returns was drawn from the stream by the
affine scatter formula. -/
theorem pickPos_spec (rng : ℕ → ℝ) (minX maxX minY maxY : ℝ) (used : List (ℤ × ℤ)) :
    ∀ (fuel idx : ℕ) (x y : ℝ) (idx2 : ℕ),
    pickPos rng minX maxX minY maxY used fuel idx = some (x, y, idx2) →
    ∃ j : ℕ, x = minX + rng j * (maxX - minX) ∧ y = minY + rng (j + 1) * (maxY - minY) := by
  intro fuel
  induction fuel with
  | zero => intro idx x y idx2 h; simp [pickPos] at h
  | succ n ih =>
    intro idx x y idx2 h
    rw [pickPos] at h
    split_ifs at h with hmem
    · exact ih (idx + 2) x y idx2 h
    · simp only [Option.some.injEq, Prod.mk.injEq] at h
      exact ⟨idx, h.1.symm, h.2.1.symm⟩

theorem mkPellets_length (rng : ℕ → ℝ) (minX maxX minY maxY : ℝ) :
    ∀ (n idx : ℕ), (mkPellets rng minX maxX minY maxY n idx).length = n := by
  intro n
  induction n with
  | zero => intro idx; rfl
  | succ m ih => intro idx; simp [mkPellets, ih]

theorem mkPellets_mem (rng : ℕ → ℝ) (minX maxX minY maxY : ℝ) :
    ∀ (n idx : ℕ) (q : Pellet), q ∈ mkPellets rng minX maxX minY maxY n idx →
    ∃ j : ℕ, q.x = minX + rng j * (maxX - minX) ∧ q.y = minY + rng (j + 1) * (maxY - minY) := by
  intro n
  induction n with
  | zero => intro idx q hq; simp [mkPellets] at hq
  | succ m ih =>
    intro idx q hq
    rw [mkPellets] at hq
    rcases List.mem_cons.mp hq with rfl | hq'
    · exact ⟨idx, rfl, rfl⟩
    · exact ih (idx + 2) q hq'

/-- An affine scatter draw with a `[0,1)` coefficient lands in the interval. -/
theorem affine_mem (lo hi r : ℝ) (hr0 : 0 ≤ r) (hr1 : r < 1) (hle : lo ≤ hi) :
    lo ≤ lo + r * (hi - lo) ∧ lo + r * (hi - lo) ≤ hi :=
  ⟨by nlinarith, by nlinarith⟩

/-- A list whose `isPlayer` flags are `true` exactly at index 0 filters to a
single player. -/
theorem filter_isPlayer_singleton : ∀ (l : List Snake), 1 ≤ l.length →
    (∀ j, j < l.length → (l.getD j default).isPlayer = decide (j = 0)) →
    (l.filter fun s => s.isPlayer).length = 1 := by
  intro l hl hspec
  cases l with
  | nil => simp at hl
  | cons s rest =>
    have hs : s.isPlayer = true := by
      have := hspec 0 (by simp)
      simpa using this
    have hrest : ∀ t ∈ rest, t.isPlayer = false := by
      intro t ht
      obtain ⟨j, hj, hjeq⟩ := List.getElem_of_mem ht
      have hsp := hspec (j + 1) (by simp; omega)
      simp only [List.getD_cons_succ] at hsp
      rw [List.getD_eq_getElem _ _ hj, hjeq] at hsp
      simpa using hsp
    have hnil : rest.filter (fun s => s.isPlayer) = [] := by
      rw [List.filter_eq_nil_iff]
      intro a ha
      simp [hrest a ha]
    simp [List.filter_cons, hs, hnil]

theorem initSnake_headPt (rng : ℕ → ℝ) (i idx2 : ℕ) (x y : ℝ) :
    headPt (initSnake rng i idx2 x y) =
      ⟨x - Real.cos (rng idx2 * (2 * Real.pi) - Real.pi) * ((0:ℕ) : ℝ) * SEGMENT_SPACING,
       y - Real.sin (rng idx2 * (2 * Real.pi) - Real.pi) * ((0:ℕ) : ℝ) * SEGMENT_SPACING⟩ := by
  unfold initSnake headPt
  dsimp only
  rw [show INITIAL_LENGTH = 14 + 1 from rfl, List.range_succ_eq_map, List.map_cons, List.headI]

theorem initSnake_headPt_x (rng : ℕ → ℝ) (i idx2 : ℕ) (x y : ℝ) :
    (headPt (initSnake rng i idx2 x y)).x = x := by
  rw [initSnake_headPt]
  push_cast
  ring

theorem initSnake_headPt_y (rng : ℕ → ℝ) (i idx2 : ℕ) (x y : ℝ) :
    (headPt (initSnake rng i idx2 x y)).y = y := by
  rw [initSnake_headPt]
  push_cast
  ring

/-- The freshly-built snake: id, player flag, speeds, and a straight
`INITIAL_LENGTH`-segment tail behind the head along its heading. -/
theorem initSnake_spec (rng : ℕ → ℝ) (i idx2 : ℕ) (x y : ℝ) :
    (initSnake rng i idx2 x y).id = (if i = 0 then "player" else "snake-" ++ toString i) ∧
    (initSnake rng i idx2 x y).isPlayer = decide (i = 0) ∧
    (initSnake rng i idx2 x y).speed = DEFAULT_SPEED ∧
    (initSnake rng i idx2 x y).turnSpeed = TURN_SPEED ∧
    (initSnake rng i idx2 x y).segments.length = INITIAL_LENGTH ∧
    (∀ k, k < INITIAL_LENGTH → (initSnake rng i idx2 x y).segments.getD k ⟨0, 0⟩ =
      ⟨(headPt (initSnake rng i idx2 x y)).x -
         Real.cos (initSnake rng i idx2 x y).angle * k * SEGMENT_SPACING,
       (headPt (initSnake rng i idx2 x y)).y -
         Real.sin (initSnake rng i idx2 x y).angle * k * SEGMENT_SPACING⟩) := by
  refine ⟨rfl, rfl, rfl, rfl, by simp [initSnake], ?_⟩
  intro k hk
  have hgd : (initSnake rng i idx2 x y).segments.getD k ⟨0, 0⟩ =
      ⟨x - Real.cos (rng idx2 * (2 * Real.pi) - Real.pi) * (k : ℝ) * SEGMENT_SPACING,
       y - Real.sin (rng idx2 * (2 * Real.pi) - Real.pi) * (k : ℝ) * SEGMENT_SPACING⟩ := by
    unfold initSnake
    dsimp only
    rw [List.getD_eq_getElem _ _ (by simpa [initSnake] using hk), List.getElem_map,
      List.getElem_range]
  have hang : (initSnake rng i idx2 x y).angle = rng idx2 * (2 * Real.pi) - Real.pi := rfl
  rw [hgd, initSnake_headPt_x, initSnake_headPt_y, hang]

/-- Invariant of the snake-construction loop: `remaining` snakes are built,
the `j`-th carrying loop index `i + j` (player exactly at overall index 0),
`INITIAL_LENGTH` segments laid out straight behind the head at
`SEGMENT_SPACING` intervals along its heading, and a head drawn by the
affine scatter formula. -/
theorem buildSnakes_spec (rng : ℕ → ℝ) (minX maxX minY maxY : ℝ) (fuel : ℕ) :
    ∀ (remaining i idx : ℕ) (used : List (ℤ × ℤ)) (snakes : List Snake) (idxEnd : ℕ),
    buildSnakes rng minX maxX minY maxY fuel remaining i idx used = some (snakes, idxEnd) →
    snakes.length = remaining ∧
    ∀ j, j < remaining →
      ((snakes.getD j default).id =
        if i + j = 0 then "player" else "snake-" ++ toString (i + j)) ∧
      ((snakes.getD j default).isPlayer = decide (i + j = 0)) ∧
      ((snakes.getD j default).speed = DEFAULT_SPEED) ∧
      ((snakes.getD j default).turnSpeed = TURN_SPEED) ∧
      ((snakes.getD j default).segments.length = INITIAL_LENGTH) ∧
      (∀ k, k < INITIAL_LENGTH → (snakes.getD j default).segments.getD k ⟨0, 0⟩ =
        ⟨(headPt (snakes.getD j default)).x -
           Real.cos (snakes.getD j default).angle * k * SEGMENT_SPACING,
         (headPt (snakes.getD j default)).y -
           Real.sin (snakes.getD j default).angle * k * SEGMENT_SPACING⟩) ∧
      (∃ m : ℕ, (headPt (snakes.getD j default)).x = minX + rng m * (maxX - minX) ∧
        (headPt (snakes.getD j default)).y = minY + rng (m + 1) * (maxY - minY)) := by
  intro remaining
  induction remaining with
  | zero =>
    intro i idx used snakes idxEnd h
    rw [buildSnakes] at h
    simp only [Option.some.injEq, Prod.mk.injEq] at h
    refine ⟨by simp [← h.1], ?_⟩
    intro j hj
    omega
  | succ n ih =>
    intro i idx used snakes idxEnd h
    rw [buildSnakes] at h
    cases hp : pickPos rng minX maxX minY maxY used fuel idx with
    | none => rw [hp] at h; exact absurd h (by simp)
    | some triple =>
      obtain ⟨x, y, idx2⟩ := triple
      rw [hp] at h
      dsimp only at h
      cases hb : buildSnakes rng minX maxX minY maxY fuel n (i + 1) (idx2 + 1)
          (cellKey x y :: used) with
      | none => rw [hb] at h; exact absurd h (by simp)
      | some pr =>
        obtain ⟨rest, idxE⟩ := pr
        rw [hb] at h
        dsimp only at h
        simp only [Option.some.injEq, Prod.mk.injEq] at h
        obtain ⟨hsn, -⟩ := h
        obtain ⟨hrestlen, hrest⟩ := ih (i + 1) (idx2 + 1) (cellKey x y :: used) rest idxE hb
        subst hsn
        constructor
        · simp [hrestlen]
        · intro j hj
          cases j with
          | zero =>
            rw [List.getD_cons_zero]
            obtain ⟨hid, hip, hsp, hts, hlen, hsegs⟩ := initSnake_spec rng i idx2 x y
            refine ⟨by rw [Nat.add_zero]; exact hid, by rw [Nat.add_zero]; exact hip,
              hsp, hts, hlen, hsegs, ?_⟩
            obtain ⟨m, hx, hy⟩ := pickPos_spec rng minX maxX minY maxY used fuel idx x y idx2 hp
            exact ⟨m, by rw [initSnake_headPt_x]; exact hx,
              by rw [initSnake_headPt_y]; exact hy⟩
          | succ j' =>
            rw [List.getD_cons_succ]
            have hr := hrest j' (by omega)
            have harith : i + (j' + 1) = i + 1 + j' := by omega
            rw [harith]
            exact hr

/-- C8 (amended):  When `createInitialState` returns (the spawn-rejection
loop finishing within its fuel), the state holds exactly `n` organisms in
total — the one at index 0 flagged `isPlayer` with id `"player"`, the other
`n - 1` with ids `"snake-{j}"` (so `n - 1` non-player organisms, not `n`) —
each with `INITIAL_LENGTH` segments trailing straight behind the head at
`SEGMENT_SPACING` intervals, and exactly `p` pellets; with RNG draws in
`[0, 1)` and bounds at least twice the arena padding, every head spawn
position and every pellet lies within the bounds inset by the padding
(trailing segments may extend outside). -/
theorem createInitialState_spec (rng : ℕ → ℝ) (bounds : Bounds) (n p fuel : ℕ)
    (st : GameState) (hn : 1 ≤ n)
    (h : createInitialState rng bounds n p fuel = some st) :
    st.snakes.length = n ∧
    st.pellets.length = p ∧
    (st.snakes.getD 0 default).id = "player" ∧
    (st.snakes.getD 0 default).isPlayer = true ∧
    (st.snakes.filter fun s => s.isPlayer).length = 1 ∧
    (∀ j, j < n →
      ((st.snakes.getD j default).id = if j = 0 then "player" else "snake-" ++ toString j) ∧
      ((st.snakes.getD j default).isPlayer = decide (j = 0)) ∧
      ((st.snakes.getD j default).speed = DEFAULT_SPEED) ∧
      ((st.snakes.getD j default).turnSpeed = TURN_SPEED) ∧
      ((st.snakes.getD j default).segments.length = INITIAL_LENGTH) ∧
      (∀ k, k < INITIAL_LENGTH → (st.snakes.getD j default).segments.getD k ⟨0, 0⟩ =
        ⟨(headPt (st.snakes.getD j default)).x -
           Real.cos (st.snakes.getD j default).angle * k * SEGMENT_SPACING,
         (headPt (st.snakes.getD j default)).y -
           Real.sin (st.snakes.getD j default).angle * k * SEGMENT_SPACING⟩)) ∧
    ((∀ m, 0 ≤ rng m ∧ rng m < 1) → 2 * ARENA_PADDING ≤ bounds.width →
      2 * ARENA_PADDING ≤ bounds.height →
      (∀ j, j < n →
        ARENA_PADDING ≤ (headPt (st.snakes.getD j default)).x ∧
        (headPt (st.snakes.getD j default)).x ≤ bounds.width - ARENA_PADDING ∧
        ARENA_PADDING ≤ (headPt (st.snakes.getD j default)).y ∧
        (headPt (st.snakes.getD j default)).y ≤ bounds.height - ARENA_PADDING) ∧
      (∀ q ∈ st.pellets,
        ARENA_PADDING ≤ q.x ∧ q.x ≤ bounds.width - ARENA_PADDING ∧
        ARENA_PADDING ≤ q.y ∧ q.y ≤ bounds.height - ARENA_PADDING)) := by
  unfold createInitialState at h
  dsimp only at h
  cases hb : buildSnakes rng ARENA_PADDING (bounds.width - ARENA_PADDING) ARENA_PADDING
      (bounds.height - ARENA_PADDING) fuel n 0 0 [] with
  | none => rw [hb] at h; exact absurd h (by simp)
  | some pr =>
    obtain ⟨snakes, idx⟩ := pr
    rw [hb] at h
    dsimp only at h
    simp only [Option.some.injEq] at h
    subst h
    obtain ⟨hlen, hspec⟩ := buildSnakes_spec rng ARENA_PADDING (bounds.width - ARENA_PADDING)
      ARENA_PADDING (bounds.height - ARENA_PADDING) fuel n 0 0 [] snakes idx hb
    have hspec' : ∀ j, j < n →
        ((snakes.getD j default).id = if j = 0 then "player" else "snake-" ++ toString j) ∧
        ((snakes.getD j default).isPlayer = decide (j = 0)) ∧
        ((snakes.getD j default).speed = DEFAULT_SPEED) ∧
        ((snakes.getD j default).turnSpeed = TURN_SPEED) ∧
        ((snakes.getD j default).segments.length = INITIAL_LENGTH) ∧
        (∀ k, k < INITIAL_LENGTH → (snakes.getD j default).segments.getD k ⟨0, 0⟩ =
          ⟨(headPt (snakes.getD j default)).x -
             Real.cos (snakes.getD j default).angle * k * SEGMENT_SPACING,
           (headPt (snakes.getD j default)).y -
             Real.sin (snakes.getD j default).angle * k * SEGMENT_SPACING⟩) ∧
        (∃ m : ℕ, (headPt (snakes.getD j default)).x =
            ARENA_PADDING + rng m * ((bounds.width - ARENA_PADDING) - ARENA_PADDING) ∧
          (headPt (snakes.getD j default)).y =
            ARENA_PADDING + rng (m + 1) * ((bounds.height - ARENA_PADDING) - ARENA_PADDING)) := by
      intro j hj
      have := hspec j hj
      rwa [Nat.zero_add] at this
    have h0 := hspec' 0 (by omega)
    refine ⟨hlen, mkPellets_length _ _ _ _ _ _ _, by simpa using h0.1, by simpa using h0.2.1,
      ?_, fun j hj => ⟨(hspec' j hj).1, (hspec' j hj).2.1, (hspec' j hj).2.2.1,
        (hspec' j hj).2.2.2.1, (hspec' j hj).2.2.2.2.1, (hspec' j hj).2.2.2.2.2.1⟩, ?_⟩
    · exact filter_isPlayer_singleton snakes (by omega)
        (fun j hj => (hspec' j (by omega : j < n)).2.1)
    · intro hrng hw hh
      have hlex : ARENA_PADDING ≤ bounds.width - ARENA_PADDING := by linarith
      have hley : ARENA_PADDING ≤ bounds.height - ARENA_PADDING := by linarith
      constructor
      · intro j hj
        obtain ⟨m, hx, hy⟩ := (hspec' j hj).2.2.2.2.2.2
        obtain ⟨hx1, hx2⟩ := affine_mem ARENA_PADDING (bounds.width - ARENA_PADDING)
          (rng m) (hrng m).1 (hrng m).2 hlex
        obtain ⟨hy1, hy2⟩ := affine_mem ARENA_PADDING (bounds.height - ARENA_PADDING)
          (rng (m + 1)) (hrng (m + 1)).1 (hrng (m + 1)).2 hley
        rw [hx, hy]
        exact ⟨hx1, hx2, hy1, hy2⟩
      · intro q hq
        obtain ⟨m, hx, hy⟩ := mkPellets_mem rng ARENA_PADDING (bounds.width - ARENA_PADDING)
          ARENA_PADDING (bounds.height - ARENA_PADDING) p idx q hq
        obtain ⟨hx1, hx2⟩ := affine_mem ARENA_PADDING (bounds.width - ARENA_PADDING)
          (rng m) (hrng m).1 (hrng m).2 hlex
        obtain ⟨hy1, hy2⟩ := affine_mem ARENA_PADDING (bounds.height - ARENA_PADDING)
          (rng (m + 1)) (hrng (m + 1)).1 (hrng (m + 1)).2 hley
        rw [hx, hy]
        exact ⟨hx1, hx2, hy1, hy2⟩

/-- With no cells taken yet, the rejection loop accepts the first draw. -/
theorem pickPos_fresh (rng : ℕ → ℝ) (minX maxX minY maxY : ℝ) (fuel idx : ℕ) :
    pickPos rng minX maxX minY maxY [] (fuel + 1) idx =
      some (minX + rng idx * (maxX - minX), minY + rng (idx + 1) * (maxY - minY), idx + 2) := by
  rw [pickPos, if_neg (List.not_mem_nil _)]

/-- The snake built from the constant-`1/2` stream. -/
theorem initSnake_half_eval :
    initSnake rngHalf 0 (0 + 2)
      (ARENA_PADDING + rngHalf 0 * (((3000:ℝ) - ARENA_PADDING) - ARENA_PADDING))
      (ARENA_PADDING + rngHalf (0 + 1) * (((3000:ℝ) - ARENA_PADDING) - ARENA_PADDING)) =
      sInit := by
  have hx : ARENA_PADDING + rngHalf 0 * (((3000:ℝ) - ARENA_PADDING) - ARENA_PADDING) = 1500 := by
    unfold rngHalf ARENA_PADDING
    norm_num
  have hy : ARENA_PADDING + rngHalf (0 + 1) * (((3000:ℝ) - ARENA_PADDING) - ARENA_PADDING)
      = 1500 := by
    unfold rngHalf ARENA_PADDING
    norm_num
  have hangle : rngHalf (0 + 2) * (2 * Real.pi) - Real.pi = 0 := by
    unfold rngHalf
    ring
  rw [hx, hy]
  unfold initSnake sInit
  dsimp only
  simp only [hangle]
  norm_num

/-- Full evaluation of `createInitialState` on the constant-`1/2` stream with
one organism, zero pellets, and one unit of rejection fuel. -/
theorem initState_eval : createInitialState rngHalf ⟨3000, 3000⟩ 1 0 1 = some stInit := by
  have hb1 : buildSnakes rngHalf ARENA_PADDING ((3000:ℝ) - ARENA_PADDING) ARENA_PADDING
      ((3000:ℝ) - ARENA_PADDING) (0 + 1) (0 + 1) 0 0 [] =
      some ([initSnake rngHalf 0 (0 + 2)
        (ARENA_PADDING + rngHalf 0 * (((3000:ℝ) - ARENA_PADDING) - ARENA_PADDING))
        (ARENA_PADDING + rngHalf (0 + 1) * (((3000:ℝ) - ARENA_PADDING) - ARENA_PADDING))],
        0 + 2 + 1) := by
    rw [buildSnakes, pickPos_fresh]
    dsimp only
    rw [buildSnakes]
  have h1 : createInitialState rngHalf ⟨3000, 3000⟩ (0 + 1) 0 (0 + 1) = some stInit := by
    unfold createInitialState
    dsimp only
    rw [hb1]
    dsimp only
    rw [mkPellets, initSnake_half_eval]
    unfold stInit
    norm_num [PELLET_SPAWN_INTERVAL]
  simpa using h1

/-- C8 counterexample:  With `numBots = 1`, `createInitialState` returns
exactly one organism in total and zero non-player organisms — not one
non-player bot plus a player (two organisms) as the claim requires. -/
theorem initial_state_bot_count_cex :
    (Option.map (fun st => st.snakes.length) (createInitialState rngHalf ⟨3000, 3000⟩ 1 0 1) =
      some 1) ∧
    (Option.map (fun st => (st.snakes.filter fun s => !s.isPlayer).length)
      (createInitialState rngHalf ⟨3000, 3000⟩ 1 0 1) = some 0) ∧
    ((1:ℕ) ≠ 1 + 1) := by
  rw [initState_eval]
  refine ⟨by simp [stInit], ?_, by norm_num⟩
  simp [stInit, sInit]

/-- Witness for C8's amended construction contract at `numBots = 1`,
`numPellets = 0`. -/
theorem createInitialState_witness :
    (1:ℕ) ≤ 1 ∧ stInit.snakes.length = 1 ∧ stInit.pellets.length = 0 ∧
    (stInit.snakes.getD 0 default).id = "player" ∧
    (stInit.snakes.getD 0 default).isPlayer = true ∧
    (stInit.snakes.filter fun s => s.isPlayer).length = 1 := by
  have h := createInitialState_spec rngHalf ⟨3000, 3000⟩ 1 0 1 stInit le_rfl initState_eval
  exact ⟨le_rfl, h.1, h.2.1, h.2.2.1, h.2.2.2.1, h.2.2.2.2.1⟩

end Slither
